import Mathlib

/-!
# Entitlement reconciliation (`db/repo/repo.go`, `db/models/models.go`)

A shallow embedding of the entitlement reconciler `UpdateEntitlements`, of its helpers
`determineValueType` and `compareEntitlementValues`, and of the part of the storage layer
they touch (the `entitlement_values` and `entitlements` tables, the "latest record of a
triple" query, inserts with auto-increment keys, and the enclosing transaction); and of
the decision `CheckCustomerRegistration` takes on the row its query returns.

Conventions of the embedding:

* a Go pointer field (`*bool`, `*float64`, `*int64`, `*string`) is an `Option`;
* `int64` is `Int` (only equality and calendar arithmetic are used on it);
* `float64` is its IEEE 754 bit pattern, with the equality Go's `==` gives it;
* the database handle `r.db` is a `Store`: the rows of the two tables in insertion order;
* `Preload("Value")` is the query GORM derives from the tag on `models.Entitlement.Value`:
  a has-one association keyed on the record's primary key (see `gorm.preloadValue`);
* everything the source reads from its environment (the wall clock read by the
  `BeforeCreate` hook, the local time zone, and whether a storage call fails) is an
  explicit `Env` indexed by the position of the observation in the batch;
* `time.Unix(sec, 0).Format(time.RFC3339)` is computed for instants whose local year has
  four digits, and is a parameter of the environment for the others.
-/

set_option autoImplicit false

/-! ## Go values -/

namespace Go

/-- A Go `float64`, given by its IEEE 754 binary64 bit pattern (read modulo `2^64`). -/
structure Float64 where
  bits : Nat
  deriving DecidableEq, Repr

/-- Whether the bit pattern is a NaN: exponent all ones and a non-zero mantissa. -/
def Float64.isNaN (x : Float64) : Bool :=
  (x.bits / 2 ^ 52) % 2 ^ 11 == 2047 && x.bits % 2 ^ 52 != 0

/-- Whether the bit pattern is `+0` or `-0`. -/
def Float64.isZero (x : Float64) : Bool :=
  x.bits % 2 ^ 63 == 0

/-- Go's `==` on `float64`: a NaN equals nothing, the two zeros are equal, and any other
two values are equal exactly when their bit patterns are. -/
def Float64.eq (x y : Float64) : Bool :=
  !x.isNaN && !y.isNaN && ((x.isZero && y.isZero) || x.bits % 2 ^ 64 == y.bits % 2 ^ 64)

/-- `reflect.DeepEqual` on two pointers of one type that do not alias (one operand is
loaded from the database, the other built from the request): two nil pointers are equal,
a nil and a non-nil pointer are not, and two non-nil pointers are compared by pointee
with `eq`, which is Go's `==` at that type. -/
def DeepEqual {α : Type} (eq : α → α → Bool) : Option α → Option α → Bool
  | none, none => true
  | some a, some b => eq a b
  | _, _ => false

/-- The decimal digits of `n`, left-padded with zeros to `width` (Go's `appendInt` on a
non-negative number). -/
def zeroPad (width : Nat) (n : Nat) : String :=
  let digits := Nat.repr n
  String.mk (List.replicate (width - digits.length) '0') ++ digits

/-- Go's `appendInt`: a minus sign for a negative number, then the zero-padded digits. -/
def appendInt (x : Int) (width : Nat) : String :=
  if x < 0 then "-" ++ zeroPad width x.natAbs else zeroPad width x.natAbs

/-- The proleptic Gregorian date `(year, month, day)` of the day `days` days after
1970-01-01. -/
def civilFromDays (days : Int) : Int × Int × Int :=
  let z := days + 719468
  let era := z / 146097
  let doe := z - era * 146097
  let yoe := (doe - doe / 1460 + doe / 36524 - doe / 146096) / 365
  let doy := doe - (365 * yoe + yoe / 4 - yoe / 100)
  let mp := (5 * doy + 2) / 153
  let d := doy - (153 * mp + 2) / 5 + 1
  let m := if mp < 10 then mp + 3 else mp - 9
  let y := yoe + era * 400
  (if m ≤ 2 then y + 1 else y, m, d)

/-- The `Z07:00` element of the layout for a zone `offset` seconds east of UTC: `Z` when
the offset is zero; otherwise the offset in whole minutes, rounded toward zero as Go's
`offset / 60` does, with a minus sign when that number of minutes is negative and a plus
sign otherwise, written as `hh:mm`. -/
def zoneSuffix (offset : Int) : String :=
  if offset = 0 then "Z"
  else
    let zone := Int.tdiv offset 60
    if zone < 0 then "-" ++ appendInt ((-zone) / 60) 2 ++ ":" ++ appendInt ((-zone) % 60) 2
    else "+" ++ appendInt (zone / 60) 2 ++ ":" ++ appendInt (zone % 60) 2

/-- Whether the local date of the Unix instant `sec`, in a zone `offset` seconds east of
UTC, lies in the years 0000 to 9999: from 0000-01-01T00:00:00 to 9999-12-31T23:59:59 on
the local clock. These are the instants RFC 3339 can write, and on them Go's calendar
arithmetic does not wrap. -/
def fourDigitYear (offset : Int) (sec : Int) : Bool :=
  decide (-62167219200 ≤ sec + offset) && decide (sec + offset ≤ 253402300799)

/-- Render `time.Unix(sec, 0).Format(time.RFC3339)` in a location whose offset at that
instant is `offset` seconds east of UTC, for an instant whose local year has four digits:
`YYYY-MM-DDThh:mm:ss` on the local clock, followed by the zone. -/
def formatRFC3339 (offset : Int) (sec : Int) : String :=
  let abs := sec + offset
  let days := abs / 86400
  let rem := abs % 86400
  let (year, month, day) := civilFromDays days
  appendInt year 4 ++ "-" ++ appendInt month 2 ++ "-" ++ appendInt day 2 ++ "T"
    ++ appendInt (rem / 3600) 2 ++ ":" ++ appendInt (rem % 3600 / 60) 2 ++ ":"
    ++ appendInt (rem % 60) 2 ++ zoneSuffix offset

end Go

/-! ## `db/models/models.go` -/

namespace models

/-- `type ValueType string`. -/
abbrev ValueType := String

def ValueTypeBoolean : ValueType := "boolean"
def ValueTypeDouble : ValueType := "double"
def ValueTypeInteger : ValueType := "integer"
def ValueTypeString : ValueType := "string"

/-- A row of the `entitlement_values` table. -/
structure EntitlementValue where
  ValueID : Int
  BooleanValue : Option Bool
  DoubleValue : Option Go.Float64
  IntegerValue : Option Int
  StringValue : Option String
  ValueType : ValueType
  deriving DecidableEq, Repr

/-- A row of the `entitlements` table: the columns of `models.Entitlement`. The struct's
association pointers (`Customer`, `Product`, `Value`) are not columns; the `Value` that
`Preload("Value")` attaches is returned next to the row by the lookup. Timestamps are
in the unit the column stores. -/
structure Entitlement where
  EntitlementID : Int
  CustomerIdentifier : String
  ProductCode : String
  Dimension : String
  ExpirationDate : String
  ValueID : Int
  CreatedAt : Int
  UpdatedAt : Int
  deriving DecidableEq, Repr

end models

/-! ## The storage layer behind `*gorm.DB` -/

namespace gorm

/-- The two tables the reconciler reads and writes, each in insertion order. -/
structure Store where
  entitlement_values : List models.EntitlementValue
  entitlements : List models.Entitlement
  deriving DecidableEq, Repr

/-- What the reconciler reads from its environment while it handles the observation at
position `i` of the batch. -/
structure Env where
  /-- The instant `time.Now()` gives the `BeforeCreate` hook, in the unit of `created_at`. -/
  now : Nat → Int
  /-- The offset of `time.Local`, in seconds east of UTC, at a given Unix instant. -/
  zoneOffset : Int → Int
  /-- What `time.Unix(sec, 0).Format(time.RFC3339)` yields for an instant whose local year
  does not have four digits. There the text is not an RFC 3339 timestamp, and near the
  ends of `int64` Go's calendar arithmetic wraps; the embedding leaves it to the
  environment. -/
  formatBeyond : Int → String
  /-- The error of `db.Begin`, when the transaction cannot be opened. -/
  beginErr : Option String
  /-- The error of `tx.Commit`, when the commit fails. -/
  commitErr : Option String
  /-- The error of the latest-record query, when the storage layer fails it. -/
  lookupErr : Nat → Option String
  /-- The error of the insert into `entitlement_values`, when it fails. -/
  valueErr : Nat → Option String
  /-- The error of the insert into `entitlements`, when it fails. -/
  recordErr : Nat → Option String

/-- The largest `value_id` in the table, `0` for an empty one. -/
def maxValueID (rows : List models.EntitlementValue) : Int :=
  rows.foldr (fun v m => max v.ValueID m) 0

/-- The largest `entitlement_id` in the table, `0` for an empty one. -/
def maxEntitlementID (rows : List models.Entitlement) : Int :=
  rows.foldr (fun r m => max r.EntitlementID m) 0

/-- The `WHERE customer_identifier = ? AND product_code = ? AND dimension = ?` filter. -/
def matchesTriple (c p d : String) (r : models.Entitlement) : Bool :=
  r.CustomerIdentifier == c && r.ProductCode == p && r.Dimension == d

/-- Whether row `a` comes strictly before row `b` under
`ORDER BY created_at DESC, entitlement_id` (the primary-key order is what `First` adds). -/
def precedes (a b : models.Entitlement) : Bool :=
  decide (b.CreatedAt < a.CreatedAt)
    || (a.CreatedAt == b.CreatedAt && decide (a.EntitlementID < b.EntitlementID))

/-- The first row of a result set under that order (`LIMIT 1`); among rows that tie on
both keys the one inserted first. -/
def firstOrdered (rows : List models.Entitlement) : Option models.Entitlement :=
  rows.foldl
    (fun best r =>
      match best with
      | none => some r
      | some b => if precedes r b then some r else some b)
    none

/-- The latest record of a triple: the rows matching the triple, first under the order. -/
def latest (tx : Store) (c p d : String) : Option models.Entitlement :=
  firstOrdered (tx.entitlements.filter (matchesTriple c p d))

/-- What `Preload("Value")` attaches to a record. The association is declared on
`models.Entitlement` as `Value *EntitlementValue` with the tag `foreignKey:ValueID`; since
`EntitlementValue` has a field `ValueID` of its own, GORM resolves the tag against that
struct and treats the association as has-one: the foreign key is the `value_id` column
of `entitlement_values` and it refers to the primary key of the record. So the query is
`SELECT * FROM entitlement_values WHERE value_id IN (<entitlement_id of the record>)`:
the row attached is the one whose `value_id` equals the record's `entitlement_id`, not
the one the record's own `value_id` column names; nil when there is no such row. A zero
primary key is not looked up at all. -/
def preloadValue (tx : Store) (r : models.Entitlement) : Option models.EntitlementValue :=
  if r.EntitlementID = 0 then none
  else tx.entitlement_values.find? (fun v => v.ValueID == r.EntitlementID)

/-- The result of `tx.Preload("Value").Where(...).Order("created_at DESC").First(&existing)`. -/
inductive QueryResult where
  /-- A record was found; `value` is `existing.Value`. -/
  | found (existing : models.Entitlement) (value : Option models.EntitlementValue)
  /-- `result.Error == gorm.ErrRecordNotFound`. -/
  | ErrRecordNotFound
  /-- Any other `result.Error`. -/
  | failed (msg : String)
  deriving DecidableEq, Repr

/-- The latest-record query for the observation at position `i`. -/
def First (env : Env) (i : Nat) (tx : Store) (c p d : String) : QueryResult :=
  match env.lookupErr i with
  | some msg => .failed msg
  | none =>
    match latest tx c p d with
    | none => .ErrRecordNotFound
    | some existing => .found existing (preloadValue tx existing)

/-- The call `tx.Create(newEntValue)`: the row is appended; a zero `ValueID` is replaced by
the next auto-increment key, which is written back into the value. -/
def CreateValue (env : Env) (i : Nat) (tx : Store) (v : models.EntitlementValue) :
    Except String (Store × models.EntitlementValue) :=
  match env.valueErr i with
  | some msg => .error msg
  | none =>
    let row := if v.ValueID = 0 then { v with ValueID := maxValueID tx.entitlement_values + 1 } else v
    .ok ({ tx with entitlement_values := tx.entitlement_values ++ [row] }, row)

/-- The call `tx.Create(&newEntitlement)`: the `BeforeCreate` hook stamps `CreatedAt` and
`UpdatedAt` with the clock, a zero `EntitlementID` is replaced by the next auto-increment
key, and the row is appended. -/
def CreateEntitlement (env : Env) (i : Nat) (tx : Store) (e : models.Entitlement) :
    Except String (Store × models.Entitlement) :=
  match env.recordErr i with
  | some msg => .error msg
  | none =>
    let stamped := { e with CreatedAt := env.now i, UpdatedAt := env.now i }
    let row :=
      if stamped.EntitlementID = 0 then
        { stamped with EntitlementID := maxEntitlementID tx.entitlements + 1 }
      else stamped
    .ok ({ tx with entitlements := tx.entitlements ++ [row] }, row)

end gorm

/-! ## `db/repo/repo.go` -/

namespace repo

/-- The errors `UpdateEntitlements` can return: `ErrInvalidValue`, or an error of the
storage layer passed on as it came. -/
inductive Error where
  | ErrInvalidValue
  | storage (msg : String)
  deriving DecidableEq, Repr

/-- How the transaction body stops early: it returns an error, or it dereferences a nil
`ExpirationDate` and the goroutine panics. -/
inductive Abort where
  | returned (err : Error)
  | nilDereference
  deriving DecidableEq, Repr

/-- The value of an observation (`repo.EntitlementValue`): four optional fields. -/
structure EntitlementValue where
  BooleanValue : Option Bool
  DoubleValue : Option Go.Float64
  IntegerValue : Option Int
  StringValue : Option String
  deriving DecidableEq, Repr

/-- One observation of the batch (`repo.Entitlement`). -/
structure Entitlement where
  CustomerIdentifier : String
  Dimension : String
  ExpirationDate : Option Int
  ProductCode : String
  Value : EntitlementValue
  deriving DecidableEq, Repr

/-- The batch (`repo.GetEntitlementsResponse`, alias `EntitlementResponse`). -/
structure GetEntitlementsResponse where
  Entitlements : List Entitlement
  NextToken : Option String
  deriving DecidableEq, Repr

abbrev EntitlementResponse := GetEntitlementsResponse

/-- The zero value `&models.EntitlementValue{}`. -/
def zeroValue : models.EntitlementValue :=
  { ValueID := 0, BooleanValue := none, DoubleValue := none, IntegerValue := none,
    StringValue := none, ValueType := "" }

/-- The function `determineValueType`: the first field that is set, in the order boolean,
double, integer, string, decides the tag and is the only payload copied. -/
def determineValueType (value : EntitlementValue) : Except Error models.EntitlementValue :=
  if value.BooleanValue.isSome then
    .ok { zeroValue with ValueType := models.ValueTypeBoolean, BooleanValue := value.BooleanValue }
  else if value.DoubleValue.isSome then
    .ok { zeroValue with ValueType := models.ValueTypeDouble, DoubleValue := value.DoubleValue }
  else if value.IntegerValue.isSome then
    .ok { zeroValue with ValueType := models.ValueTypeInteger, IntegerValue := value.IntegerValue }
  else if value.StringValue.isSome then
    .ok { zeroValue with ValueType := models.ValueTypeString, StringValue := value.StringValue }
  else
    .error .ErrInvalidValue

/-- The function `compareEntitlementValues`. -/
def compareEntitlementValues (existing new : models.EntitlementValue) : Bool :=
  if existing.ValueType ≠ new.ValueType then false
  else if existing.ValueType = models.ValueTypeBoolean then
    Go.DeepEqual (fun a b => a == b) existing.BooleanValue new.BooleanValue
  else if existing.ValueType = models.ValueTypeDouble then
    Go.DeepEqual Go.Float64.eq existing.DoubleValue new.DoubleValue
  else if existing.ValueType = models.ValueTypeInteger then
    Go.DeepEqual (fun a b => a == b) existing.IntegerValue new.IntegerValue
  else if existing.ValueType = models.ValueTypeString then
    Go.DeepEqual (fun a b => a == b) existing.StringValue new.StringValue
  else false

/-- The expression `time.Unix(*ent.ExpirationDate, 0).Format(time.RFC3339)`, evaluated in
the local zone of the environment. -/
def formatExpiration (env : gorm.Env) (sec : Int) : String :=
  if Go.fourDigitYear (env.zoneOffset sec) sec then Go.formatRFC3339 (env.zoneOffset sec) sec
  else env.formatBeyond sec

/-- The create path of `UpdateEntitlements`, written out twice in the source (lines
250-268 when no record exists, lines 283-301 when the value changed): insert the value,
dereference and format the expiration, insert the record that references the value. -/
def createVersion (env : gorm.Env) (i : Nat) (tx : gorm.Store) (ent : Entitlement)
    (newEntValue : models.EntitlementValue) : Except Abort gorm.Store :=
  match gorm.CreateValue env i tx newEntValue with
  | .error msg => .error (.returned (.storage msg))
  | .ok (tx1, created) =>
    match ent.ExpirationDate with
    | none => .error .nilDereference
    | some sec =>
      let expirationDate := formatExpiration env sec
      let newEntitlement : models.Entitlement :=
        { EntitlementID := 0
          CustomerIdentifier := ent.CustomerIdentifier
          ProductCode := ent.ProductCode
          Dimension := ent.Dimension
          ExpirationDate := expirationDate
          ValueID := created.ValueID
          CreatedAt := 0
          UpdatedAt := 0 }
      match gorm.CreateEntitlement env i tx1 newEntitlement with
      | .error msg => .error (.returned (.storage msg))
      | .ok (tx2, _) => .ok tx2

/-- One iteration of the loop of `UpdateEntitlements`, for the observation at position `i`. -/
def reconcileOne (env : gorm.Env) (i : Nat) (tx : gorm.Store) (ent : Entitlement) :
    Except Abort gorm.Store :=
  let result := gorm.First env i tx ent.CustomerIdentifier ent.ProductCode ent.Dimension
  match determineValueType ent.Value with
  | .error err => .error (.returned err)
  | .ok newEntValue =>
    match result with
    | .ErrRecordNotFound => createVersion env i tx ent newEntValue
    | .failed msg => .error (.returned (.storage msg))
    | .found _ none => .ok tx
    | .found _ (some existingValue) =>
      if compareEntitlementValues existingValue newEntValue then .ok tx
      else createVersion env i tx ent newEntValue

/-- The loop `for _, ent := range response.Entitlements`, from position `i` on. -/
def reconcileFrom (env : gorm.Env) : Nat → gorm.Store → List Entitlement → Except Abort gorm.Store
  | _, tx, [] => .ok tx
  | i, tx, ent :: rest =>
    match reconcileOne env i tx ent with
    | .error a => .error a
    | .ok tx1 => reconcileFrom env (i + 1) tx1 rest

/-- How a call ends: it returns `nil` or an error, or it panics. -/
inductive Outcome where
  | returned (err : Option Error)
  | panicked
  deriving DecidableEq, Repr

/-- The call `db.Transaction(fc)`: when `Begin` fails its error is returned; otherwise the
body runs on the transaction's view of the store, and its writes are committed when it
returns nil and rolled back when it returns an error, when it panics, or when the commit
fails. -/
def Transaction (env : gorm.Env) (db : gorm.Store)
    (fc : gorm.Store → Except Abort gorm.Store) : gorm.Store × Outcome :=
  match env.beginErr with
  | some msg => (db, .returned (some (.storage msg)))
  | none =>
    match fc db with
    | .ok tx =>
      match env.commitErr with
      | some msg => (db, .returned (some (.storage msg)))
      | none => (tx, .returned none)
    | .error (.returned err) => (db, .returned (some err))
    | .error .nilDereference => (db, .panicked)

/-- The method `UpdateEntitlements`: the store after the call and how the call ended. -/
def UpdateEntitlements (env : gorm.Env) (db : gorm.Store) (response : EntitlementResponse) :
    gorm.Store × Outcome :=
  Transaction env db (fun tx => reconcileFrom env 0 tx response.Entitlements)

/-- The row `CheckCustomerRegistration` scans its query into (`customerRegistrationCheck`):
the customer's identifier, the six profile columns and the product name, each nullable
column a pointer. -/
structure customerRegistrationCheck where
  CustomerIdentifier : String
  Name : Option String
  Email : Option String
  Phone : Option String
  JobRole : Option String
  Company : Option String
  Country : Option String
  ProductName : Option String
  deriving DecidableEq, Repr

/-- The result of `CheckCustomerRegistration` (`CustomerRegistrationStatus`). -/
structure CustomerRegistrationStatus where
  NeedsRegistration : Bool
  ProductName : String
  deriving DecidableEq, Repr

/-- The method `CheckCustomerRegistration`. Its query (customers left-joined with
entitlements and products, latest entitlement first, one row) is the parameter `scan`:
the query's error, or what `Scan` leaves in the struct, which is the zero value when no
row matches. -/
def CheckCustomerRegistration (scan : String → Except String customerRegistrationCheck)
    (customerIdentifier : String) : Except Error CustomerRegistrationStatus :=
  match scan customerIdentifier with
  | .error msg => .error (.storage msg)
  | .ok result =>
    if result.CustomerIdentifier = "" then
      .ok { NeedsRegistration := false, ProductName := "" }
    else
      let needsRegistration :=
        result.Name.isNone || result.Email.isNone || result.Phone.isNone
          || result.JobRole.isNone || result.Company.isNone || result.Country.isNone
      let productName :=
        match result.ProductName with
        | some name => name
        | none => ""
      .ok { NeedsRegistration := needsRegistration, ProductName := productName }

end repo

/-! ## Vocabulary of the statements -/

namespace gorm

/-- An environment in which no storage call fails, the clock reads `t0 + i` while the
observation at position `i` is handled, and the local zone is UTC. -/
def Env.ideal (t0 : Int) : Env :=
  { now := fun i => t0 + i
    zoneOffset := fun _ => 0
    formatBeyond := fun _ => ""
    beginErr := none
    commitErr := none
    lookupErr := fun _ => none
    valueErr := fun _ => none
    recordErr := fun _ => none }

/-- As `Env.ideal`, but every latest-record query fails with `msg`. -/
def Env.lookupFails (t0 : Int) (msg : String) : Env :=
  { Env.ideal t0 with lookupErr := fun _ => some msg }

/-- As `Env.ideal`, but every insert into `entitlement_values` fails with `msg`. -/
def Env.valueInsertFails (t0 : Int) (msg : String) : Env :=
  { Env.ideal t0 with valueErr := fun _ => some msg }

/-- As `Env.ideal`, but the clock stands still at `t0`. -/
def Env.frozen (t0 : Int) : Env :=
  { Env.ideal t0 with now := fun _ => t0 }

/-- As `Env.ideal`, but the local zone is `offset` seconds east of UTC. -/
def Env.inZone (t0 : Int) (offset : Int) : Env :=
  { Env.ideal t0 with zoneOffset := fun _ => offset }

/-- No storage call fails. -/
def Env.Healthy (env : Env) : Prop :=
  env.beginErr = none ∧ env.commitErr = none ∧
    ∀ i, env.lookupErr i = none ∧ env.valueErr i = none ∧ env.recordErr i = none

/-- Every record's Value row exists: the record's `value_id` is the key of a row of
`entitlement_values`. -/
def Store.Loaded (db : Store) : Prop :=
  ∀ r ∈ db.entitlements, ∃ v ∈ db.entitlement_values, v.ValueID = r.ValueID

instance (db : Store) : Decidable db.Loaded :=
  inferInstanceAs
    (Decidable (∀ r ∈ db.entitlements, ∃ v ∈ db.entitlement_values, v.ValueID = r.ValueID))

/-- The two tables have the same highest key, so the next Value row and the next record
are inserted under the same key. -/
def Store.InStep (db : Store) : Prop :=
  maxValueID db.entitlement_values = maxEntitlementID db.entitlements

instance (db : Store) : Decidable db.InStep :=
  inferInstanceAs (Decidable (maxValueID db.entitlement_values = maxEntitlementID db.entitlements))

/-- The row of `entitlement_values` a record refers to through its own `value_id` column,
the key the create path stored in it. -/
def referencedValue (tx : Store) (r : models.Entitlement) : Option models.EntitlementValue :=
  tx.entitlement_values.find? (fun v => v.ValueID == r.ValueID)

/-- The lookup attaches to the record the Value row the record refers to: the record's
`value_id` is the record's own key, and a Value row has that key. -/
def HoldsOwnValue (db : Store) (r : models.Entitlement) : Prop :=
  r.ValueID = r.EntitlementID ∧ (preloadValue db r).isSome = true

instance (db : Store) (r : models.Entitlement) : Decidable (HoldsOwnValue db r) :=
  inferInstanceAs (Decidable (r.ValueID = r.EntitlementID ∧ (preloadValue db r).isSome = true))

/-- The records of a triple, in insertion order. -/
def Store.recordsOf (db : Store) (t : String × String × String) : List models.Entitlement :=
  db.entitlements.filter (matchesTriple t.1 t.2.1 t.2.2)

/-- The value the lookup attaches to the latest record of a triple: nil when the triple has
no record or `Preload` finds no row for the record. -/
def Store.latestValue (db : Store) (t : String × String × String) :
    Option models.EntitlementValue :=
  match latest db t.1 t.2.1 t.2.2 with
  | none => none
  | some existing => preloadValue db existing

/-- The row `CreateValue` appends for a value whose `ValueID` is still zero. -/
def storedValue (tx : Store) (v : models.EntitlementValue) : models.EntitlementValue :=
  { v with ValueID := maxValueID tx.entitlement_values + 1 }

/-- The empty database. -/
def Store.empty : Store := { entitlement_values := [], entitlements := [] }

/-- A record of customer `c1`, product `p1` and the given dimension. -/
def recordOf (id : Int) (dimension : String) (valueID createdAt : Int) : models.Entitlement :=
  { EntitlementID := id, CustomerIdentifier := "c1", ProductCode := "p1",
    Dimension := dimension, ExpirationDate := "2023-11-14T22:13:20Z", ValueID := valueID,
    CreatedAt := createdAt, UpdatedAt := createdAt }

/-- A Value row holding a boolean. -/
def booleanRow (id : Int) (b : Bool) : models.EntitlementValue :=
  { ValueID := id, BooleanValue := some b, DoubleValue := none, IntegerValue := none,
    StringValue := none, ValueType := models.ValueTypeBoolean }

/-- A Value row holding an integer. -/
def integerRow (id : Int) (n : Int) : models.EntitlementValue :=
  { ValueID := id, BooleanValue := none, DoubleValue := none, IntegerValue := some n,
    StringValue := none, ValueType := models.ValueTypeInteger }

/-- A Value row holding a double, given by its bit pattern. -/
def doubleRow (id : Int) (bits : Nat) : models.EntitlementValue :=
  { ValueID := id, BooleanValue := none, DoubleValue := some ⟨bits⟩, IntegerValue := none,
    StringValue := none, ValueType := models.ValueTypeDouble }

end gorm

namespace repo

/-- The versioning key of an observation: customer identifier, product code, dimension. -/
def Entitlement.triple (ent : Entitlement) : String × String × String :=
  (ent.CustomerIdentifier, ent.ProductCode, ent.Dimension)

/-- All four variants of an observation's value are unset. -/
def EntitlementValue.allUnset (value : EntitlementValue) : Bool :=
  value.BooleanValue.isNone && value.DoubleValue.isNone && value.IntegerValue.isNone
    && value.StringValue.isNone

/-- The record the create path inserts for the observation at position `i`, given the
store before the two inserts and the dereferenced expiration. -/
def storedRecord (env : gorm.Env) (i : Nat) (tx : gorm.Store) (ent : Entitlement) (sec : Int) :
    models.Entitlement :=
  { EntitlementID := gorm.maxEntitlementID tx.entitlements + 1
    CustomerIdentifier := ent.CustomerIdentifier
    ProductCode := ent.ProductCode
    Dimension := ent.Dimension
    ExpirationDate := formatExpiration env sec
    ValueID := gorm.maxValueID tx.entitlement_values + 1
    CreatedAt := env.now i
    UpdatedAt := env.now i }

/-- The store after a create path: one Value row and one record appended. -/
def appended (env : gorm.Env) (i : Nat) (tx : gorm.Store) (ent : Entitlement)
    (v : models.EntitlementValue) (sec : Int) : gorm.Store :=
  { entitlement_values := tx.entitlement_values ++ [gorm.storedValue tx v]
    entitlements := tx.entitlements ++ [storedRecord env i tx ent sec] }

/-- Whether the loop body takes a create path for a resolved value `v` of an observation
of triple `t`: no record of the triple exists, or the lookup attached a Value to the
latest one and `compareEntitlementValues` finds it different. -/
def decidesWrite (tx : gorm.Store) (t : String × String × String)
    (v : models.EntitlementValue) : Bool :=
  match gorm.latest tx t.1 t.2.1 t.2.2 with
  | none => true
  | some existing =>
    match gorm.preloadValue tx existing with
    | none => false
    | some existingValue => !compareEntitlementValues existingValue v

/-- The loop body skips the observation: its value resolves and no create path is taken. -/
def Quiet (tx : gorm.Store) (ent : Entitlement) : Prop :=
  ∃ v, determineValueType ent.Value = .ok v ∧ decidesWrite tx ent.triple v = false

/-- The latest record of the observation's triple has its own key as `value_id`, the
lookup attaches a Value row to it, and `compareEntitlementValues` finds that row equal to
the observation's resolved value. -/
def Settled (tx : gorm.Store) (ent : Entitlement) : Prop :=
  ∃ v existing w, determineValueType ent.Value = .ok v ∧
    gorm.latest tx ent.CustomerIdentifier ent.ProductCode ent.Dimension = some existing ∧
    gorm.preloadValue tx existing = some w ∧ existing.ValueID = existing.EntitlementID ∧
    compareEntitlementValues w v = true

/-- The latest record of a triple, when there is one, holds its own value. -/
def Held (tx : gorm.Store) (t : String × String × String) : Prop :=
  ∀ existing, gorm.latest tx t.1 t.2.1 t.2.2 = some existing → gorm.HoldsOwnValue tx existing

/-- The clock reading taken for each observation of the batch (the one at position `k` of
the batch is handled at position `i + k` of the call) is past the creation timestamp of
every record its triple has in the store. -/
def ClockFresh (env : gorm.Env) (i : Nat) (db : gorm.Store) (batch : List Entitlement) : Prop :=
  ∀ k o, batch[k]? = some o → ∀ r ∈ db.recordsOf o.triple, r.CreatedAt < env.now (i + k)

/-- The clock reading taken for each observation of triple `t` in the batch is past the
creation timestamp of every record `t` has in the store. -/
def FreshFor (env : gorm.Env) (i : Nat) (db : gorm.Store) (batch : List Entitlement)
    (t : String × String × String) : Prop :=
  ∀ k q, batch[k]? = some q → q.triple = t → ∀ r ∈ db.recordsOf t, r.CreatedAt < env.now (i + k)

/-- Two observations of triple `t` are handled at clock readings that increase with their
position in the batch. -/
def AdvancesFor (env : gorm.Env) (i : Nat) (batch : List Entitlement)
    (t : String × String × String) : Prop :=
  ∀ j k a b, j < k → batch[j]? = some a → batch[k]? = some b → a.triple = t → b.triple = t →
    env.now (i + j) < env.now (i + k)

/-- A profile field is non-empty: it is set, and not to the empty string. -/
def nonEmpty (field : Option String) : Bool :=
  match field with
  | some text => text != ""
  | none => false

/-- A row of customer `c1` with the given name, the other five profile fields filled in
and no product. -/
def customerRow (name : Option String) : customerRegistrationCheck :=
  { CustomerIdentifier := "c1", Name := name, Email := some "ada@example.com",
    Phone := some "555-0100", JobRole := some "engineer", Company := some "Example",
    Country := some "NL", ProductName := none }

/-- A double payload, when there is one, is not a NaN. -/
def NoNaN (v : models.EntitlementValue) : Prop :=
  ∀ x, v.DoubleValue = some x → x.isNaN = false

/-- The payload a value stores under its tag. -/
inductive Payload where
  | boolean (b : Bool)
  | double (x : Go.Float64)
  | integer (n : Int)
  | string (s : String)
  deriving DecidableEq, Repr

/-- Go's `==` on two payloads of one variant; payloads of different variants are unequal. -/
def Payload.eq : Payload → Payload → Bool
  | .boolean a, .boolean b => a == b
  | .double a, .double b => Go.Float64.eq a b
  | .integer a, .integer b => a == b
  | .string a, .string b => a == b
  | _, _ => false

/-- A value has exactly the payload field named by its tag populated; the result is that
payload. -/
def taggedPayload (v : models.EntitlementValue) : Option Payload :=
  match v.BooleanValue, v.DoubleValue, v.IntegerValue, v.StringValue with
  | some b, none, none, none => if v.ValueType = models.ValueTypeBoolean then some (.boolean b) else none
  | none, some x, none, none => if v.ValueType = models.ValueTypeDouble then some (.double x) else none
  | none, none, some n, none => if v.ValueType = models.ValueTypeInteger then some (.integer n) else none
  | none, none, none, some s => if v.ValueType = models.ValueTypeString then some (.string s) else none
  | _, _, _, _ => none

/-- Typed equality in the words of the specification: each value has exactly the payload
named by its tag, the tags match, and the payloads are equal. Stated apart from
`compareEntitlementValues`, to be compared with it. -/
def typedEqual (a b : models.EntitlementValue) : Bool :=
  match taggedPayload a, taggedPayload b with
  | some p, some q => a.ValueType == b.ValueType && Payload.eq p q
  | _, _ => false

/-! ### Concrete inputs used by the examples -/

def booleanOf (b : Bool) : EntitlementValue :=
  { BooleanValue := some b, DoubleValue := none, IntegerValue := none, StringValue := none }

def doubleOf (bits : Nat) : EntitlementValue :=
  { BooleanValue := none, DoubleValue := some ⟨bits⟩, IntegerValue := none, StringValue := none }

def integerOf (n : Int) : EntitlementValue :=
  { BooleanValue := none, DoubleValue := none, IntegerValue := some n, StringValue := none }

def unsetValue : EntitlementValue :=
  { BooleanValue := none, DoubleValue := none, IntegerValue := none, StringValue := none }

/-- An observation for customer `c1`, product `p1` and the given dimension. -/
def observe (dimension : String) (value : EntitlementValue) (expiration : Option Int) :
    Entitlement :=
  { CustomerIdentifier := "c1", ProductCode := "p1", Dimension := dimension,
    ExpirationDate := expiration, Value := value }

/-- The bit pattern of the quiet NaN `math.NaN()` returns. -/
def quietNaN : Nat := 0x7FF8000000000001

/-- The bit pattern of the double `-0.0`; that of `+0.0` is `0`. -/
def negativeZero : Nat := 0x8000000000000000

end repo

/-! ## Lemmas on the storage layer -/

namespace gorm

theorem le_maxValueID {rows : List models.EntitlementValue} {v : models.EntitlementValue}
    (h : v ∈ rows) : v.ValueID ≤ maxValueID rows := by
  induction rows with
  | nil => cases h
  | cons a rest ih =>
    simp only [maxValueID, List.foldr_cons]
    rcases List.mem_cons.mp h with rfl | h
    · exact le_max_left _ _
    · exact le_trans (ih h) (le_max_right _ _)

theorem maxValueID_nonneg (rows : List models.EntitlementValue) : 0 ≤ maxValueID rows := by
  induction rows with
  | nil => simp [maxValueID]
  | cons a rest ih =>
    simp only [maxValueID, List.foldr_cons]
    exact le_trans ih (le_max_right _ _)

theorem le_maxEntitlementID {rows : List models.Entitlement} {r : models.Entitlement}
    (h : r ∈ rows) : r.EntitlementID ≤ maxEntitlementID rows := by
  induction rows with
  | nil => cases h
  | cons a rest ih =>
    simp only [maxEntitlementID, List.foldr_cons]
    rcases List.mem_cons.mp h with rfl | h
    · exact le_max_left _ _
    · exact le_trans (ih h) (le_max_right _ _)

theorem maxValueID_append_single (rows : List models.EntitlementValue)
    (x : models.EntitlementValue) :
    maxValueID (rows ++ [x]) = max (maxValueID rows) x.ValueID := by
  induction rows with
  | nil => simp [maxValueID, max_comm]
  | cons a rest ih =>
    simp only [maxValueID, List.cons_append, List.foldr_cons] at ih ⊢
    rw [ih, max_assoc]

theorem maxEntitlementID_append_single (rows : List models.Entitlement)
    (x : models.Entitlement) :
    maxEntitlementID (rows ++ [x]) = max (maxEntitlementID rows) x.EntitlementID := by
  induction rows with
  | nil => simp [maxEntitlementID, max_comm]
  | cons a rest ih =>
    simp only [maxEntitlementID, List.cons_append, List.foldr_cons] at ih ⊢
    rw [ih, max_assoc]

/-- No row has a key above the highest key of the table. -/
theorem find_above_none (rows : List models.EntitlementValue) (k : Int)
    (h : maxValueID rows < k) : rows.find? (fun v => v.ValueID == k) = none := by
  rw [List.find?_eq_none]
  intro v hv
  have := le_maxValueID hv
  simp only [beq_iff_eq]
  omega

theorem firstOrdered_nil : firstOrdered [] = none := rfl

theorem firstOrdered_append_single (rows : List models.Entitlement) (r : models.Entitlement) :
    firstOrdered (rows ++ [r]) =
      match firstOrdered rows with
      | none => some r
      | some b => if precedes r b then some r else some b := by
  simp [firstOrdered, List.foldl_append]

theorem firstOrdered_mem {rows : List models.Entitlement} {b : models.Entitlement}
    (h : firstOrdered rows = some b) : b ∈ rows := by
  induction rows using List.reverseRecOn generalizing b with
  | nil => simp [firstOrdered] at h
  | append_singleton rest r ih =>
    rw [firstOrdered_append_single] at h
    cases hf : firstOrdered rest with
    | none =>
      rw [hf] at h
      simp only [Option.some.injEq] at h
      simp [h]
    | some c =>
      rw [hf] at h
      simp only at h
      split at h
      · simp only [Option.some.injEq] at h
        simp [h]
      · simp only [Option.some.injEq] at h
        subst h
        simp [ih hf]

theorem firstOrdered_eq_none {rows : List models.Entitlement} (h : firstOrdered rows = none) :
    rows = [] := by
  induction rows using List.reverseRecOn with
  | nil => rfl
  | append_singleton rest r _ =>
    rw [firstOrdered_append_single] at h
    cases hf : firstOrdered rest with
    | none => rw [hf] at h; simp at h
    | some c =>
      rw [hf] at h
      simp only at h
      split at h <;> simp at h

theorem precedes_of_later {r b : models.Entitlement} (h : b.CreatedAt < r.CreatedAt) :
    precedes r b = true := by
  simp [precedes, h]

theorem latest_mem {tx : Store} {c p d : String} {b : models.Entitlement}
    (h : latest tx c p d = some b) : b ∈ tx.entitlements ∧ matchesTriple c p d b = true := by
  have := firstOrdered_mem h
  simpa [List.mem_filter] using this

end gorm

namespace gorm

/-- When a record's `value_id` is its own key, a row the lookup attaches to it is the row
the record refers to. -/
theorem referenced_of_preload {tx : Store} {r : models.Entitlement}
    {w : models.EntitlementValue} (hown : r.ValueID = r.EntitlementID)
    (h : preloadValue tx r = some w) : referencedValue tx r = some w := by
  unfold preloadValue at h
  by_cases hz : r.EntitlementID = 0
  · simp [hz] at h
  · simp only [hz, if_false] at h
    simpa [referencedValue, hown] using h

end gorm

/-! ## Lemmas on value resolution and comparison -/

namespace repo

theorem determineValueType_cases (value : EntitlementValue) :
    (value.allUnset = true ∧ determineValueType value = .error .ErrInvalidValue) ∨
    (value.allUnset = false ∧ ∃ v, determineValueType value = .ok v ∧ v.ValueID = 0 ∧
      ∃ p, taggedPayload v = some p) := by
  rcases value with ⟨b, x, n, s⟩
  cases b <;> cases x <;> cases n <;> cases s <;>
    simp [determineValueType, EntitlementValue.allUnset, zeroValue, taggedPayload,
      models.ValueTypeBoolean, models.ValueTypeDouble, models.ValueTypeInteger,
      models.ValueTypeString]

theorem determineValueType_ok_id {value : EntitlementValue} {v : models.EntitlementValue}
    (h : determineValueType value = .ok v) : v.ValueID = 0 := by
  rcases determineValueType_cases value with ⟨_, he⟩ | ⟨_, w, hw, hid, _⟩
  · rw [he] at h; cases h
  · rw [hw] at h; cases h; exact hid

theorem determineValueType_ok_tagged {value : EntitlementValue} {v : models.EntitlementValue}
    (h : determineValueType value = .ok v) : ∃ p, taggedPayload v = some p := by
  rcases determineValueType_cases value with ⟨_, he⟩ | ⟨_, w, hw, _, hp⟩
  · rw [he] at h; cases h
  · rw [hw] at h; cases h; exact hp

theorem Float64_eq_self {x : Go.Float64} (h : x.isNaN = false) : Go.Float64.eq x x = true := by
  simp [Go.Float64.eq, h]

/-- A well-tagged value without a NaN payload compares equal to any copy of itself that
differs only in `ValueID`. -/
theorem compare_copy_self {v : models.EntitlementValue} {p : Payload} (k : Int)
    (hp : taggedPayload v = some p) (hn : NoNaN v) :
    compareEntitlementValues { v with ValueID := k } v = true := by
  rcases v with ⟨id, b, x, n, s, t⟩
  cases b <;> cases x <;> cases n <;> cases s <;> simp [taggedPayload] at hp
  all_goals
    obtain ⟨ht, _⟩ := hp
    subst ht
    simp [compareEntitlementValues, Go.DeepEqual, models.ValueTypeBoolean,
      models.ValueTypeDouble, models.ValueTypeInteger, models.ValueTypeString]
  exact Float64_eq_self (hn _ rfl)

end repo

/-! ## Lemmas on one iteration of the loop -/

namespace repo

theorem createVersion_ok_iff {env : gorm.Env} {i : Nat} {tx tx1 : gorm.Store} {ent : Entitlement}
    {v : models.EntitlementValue} (h0 : v.ValueID = 0) :
    createVersion env i tx ent v = .ok tx1 ↔
      env.valueErr i = none ∧ env.recordErr i = none ∧
        ∃ sec, ent.ExpirationDate = some sec ∧ tx1 = appended env i tx ent v sec := by
  unfold createVersion gorm.CreateValue gorm.CreateEntitlement
  cases hv : env.valueErr i <;> cases he : ent.ExpirationDate <;> cases hr : env.recordErr i <;>
    simp [h0, appended, storedRecord, gorm.storedValue, eq_comm]

theorem reconcileOne_eq (env : gorm.Env) (i : Nat) (tx : gorm.Store) (ent : Entitlement) :
    reconcileOne env i tx ent =
      match determineValueType ent.Value with
      | .error err => .error (.returned err)
      | .ok v =>
        match env.lookupErr i with
        | some msg => .error (.returned (.storage msg))
        | none => if decidesWrite tx ent.triple v then createVersion env i tx ent v else .ok tx := by
  unfold reconcileOne gorm.First decidesWrite Entitlement.triple
  cases determineValueType ent.Value with
  | error e => rfl
  | ok v =>
    cases env.lookupErr i with
    | some msg => rfl
    | none =>
      simp only
      cases gorm.latest tx ent.CustomerIdentifier ent.ProductCode ent.Dimension with
      | none => simp
      | some ex =>
        rcases Option.eq_none_or_eq_some (gorm.preloadValue tx ex) with hpv | ⟨w, hpv⟩
        · simp [hpv]
        · cases hc : compareEntitlementValues w v <;> simp [hpv, hc]

/-- A successful iteration: the value resolved, the lookup did not fail, and either nothing
was written or one Value row and one record were appended. -/
theorem reconcileOne_ok {env : gorm.Env} {i : Nat} {tx tx1 : gorm.Store} {ent : Entitlement}
    (h : reconcileOne env i tx ent = .ok tx1) :
    ∃ v, determineValueType ent.Value = .ok v ∧ env.lookupErr i = none ∧
      ((decidesWrite tx ent.triple v = false ∧ tx1 = tx) ∨
       (decidesWrite tx ent.triple v = true ∧ env.valueErr i = none ∧ env.recordErr i = none ∧
          ∃ sec, ent.ExpirationDate = some sec ∧ tx1 = appended env i tx ent v sec)) := by
  rw [reconcileOne_eq] at h
  cases hd : determineValueType ent.Value with
  | error e => simp [hd] at h
  | ok v =>
    refine ⟨v, rfl, ?_⟩
    cases hl : env.lookupErr i with
    | some msg => simp [hd, hl] at h
    | none =>
      refine ⟨rfl, ?_⟩
      cases hw : decidesWrite tx ent.triple v with
      | false =>
        simp only [hd, hl, hw, Bool.false_eq_true, if_false, Except.ok.injEq] at h
        exact Or.inl ⟨rfl, h.symm⟩
      | true =>
        simp only [hd, hl, hw, if_true] at h
        exact Or.inr ⟨rfl, (createVersion_ok_iff (determineValueType_ok_id hd)).mp h⟩

end repo

/-! ## Lemmas on the store after a create path -/

namespace repo

theorem matchesTriple_storedRecord (env : gorm.Env) (i : Nat) (tx : gorm.Store) (ent : Entitlement)
    (sec : Int) (t : String × String × String) :
    gorm.matchesTriple t.1 t.2.1 t.2.2 (storedRecord env i tx ent sec) = decide (ent.triple = t) := by
  rcases t with ⟨c, p, d⟩
  rw [Bool.eq_iff_iff]
  simp [gorm.matchesTriple, storedRecord, Entitlement.triple, and_assoc]

theorem latest_appended_other {env : gorm.Env} {i : Nat} {tx : gorm.Store} {ent : Entitlement}
    {v : models.EntitlementValue} {sec : Int} {t : String × String × String}
    (ht : ent.triple ≠ t) :
    gorm.latest (appended env i tx ent v sec) t.1 t.2.1 t.2.2 = gorm.latest tx t.1 t.2.1 t.2.2 := by
  have hm := matchesTriple_storedRecord env i tx ent sec t
  simp only [ht, decide_False] at hm
  simp [gorm.latest, appended, List.filter_append, List.filter_cons, hm]

theorem latest_appended_same {env : gorm.Env} {i : Nat} {tx : gorm.Store} {ent : Entitlement}
    {v : models.EntitlementValue} {sec : Int}
    (hclock : ∀ r ∈ tx.recordsOf ent.triple, r.CreatedAt < env.now i) :
    gorm.latest (appended env i tx ent v sec) ent.triple.1 ent.triple.2.1 ent.triple.2.2 =
      some (storedRecord env i tx ent sec) := by
  have hm := matchesTriple_storedRecord env i tx ent sec ent.triple
  simp only [decide_True] at hm
  simp only [gorm.latest, appended, List.filter_append, List.filter_cons, hm, if_true,
    List.filter_nil, gorm.firstOrdered_append_single]
  cases hf : gorm.firstOrdered
      (List.filter (gorm.matchesTriple ent.triple.1 ent.triple.2.1 ent.triple.2.2) tx.entitlements) with
  | none => rfl
  | some b =>
    have hb : b ∈ tx.recordsOf ent.triple := gorm.firstOrdered_mem hf
    have : gorm.precedes (storedRecord env i tx ent sec) b = true :=
      gorm.precedes_of_later (by simpa [storedRecord] using hclock b hb)
    simp [this]

/-- After a create path the latest record of the observation's triple is the new record
or the one that was the latest before. -/
theorem latest_appended_cases {env : gorm.Env} {i : Nat} {tx : gorm.Store} {ent : Entitlement}
    {v : models.EntitlementValue} {sec : Int} {ex : models.Entitlement}
    (h : gorm.latest (appended env i tx ent v sec) ent.triple.1 ent.triple.2.1 ent.triple.2.2
      = some ex) :
    ex = storedRecord env i tx ent sec ∨
      gorm.latest tx ent.triple.1 ent.triple.2.1 ent.triple.2.2 = some ex := by
  have hm := matchesTriple_storedRecord env i tx ent sec ent.triple
  simp only [decide_True] at hm
  simp only [gorm.latest, appended, List.filter_append, List.filter_cons, hm, if_true,
    List.filter_nil, gorm.firstOrdered_append_single] at h ⊢
  cases hf : gorm.firstOrdered
      (List.filter (gorm.matchesTriple ent.triple.1 ent.triple.2.1 ent.triple.2.2) tx.entitlements) with
  | none =>
    simp only [hf, Option.some.injEq] at h
    exact Or.inl h.symm
  | some b =>
    simp only [hf] at h
    split at h
    · simp only [Option.some.injEq] at h
      exact Or.inl h.symm
    · exact Or.inr h

theorem inStep_appended {env : gorm.Env} {i : Nat} {tx : gorm.Store} {ent : Entitlement}
    {v : models.EntitlementValue} {sec : Int} (h : tx.InStep) :
    (appended env i tx ent v sec).InStep := by
  unfold gorm.Store.InStep at h ⊢
  simp only [appended, gorm.maxValueID_append_single, gorm.maxEntitlementID_append_single,
    gorm.storedValue, storedRecord]
  rw [h]

/-- When the tables are in step, the lookup attaches to the new record the Value row that
was created with it. -/
theorem preload_appended_new {env : gorm.Env} {i : Nat} {tx : gorm.Store} {ent : Entitlement}
    {v : models.EntitlementValue} {sec : Int} (h : tx.InStep) :
    gorm.preloadValue (appended env i tx ent v sec) (storedRecord env i tx ent sec) =
      some (gorm.storedValue tx v) := by
  unfold gorm.Store.InStep at h
  have hfresh := gorm.find_above_none tx.entitlement_values
    (gorm.maxValueID tx.entitlement_values + 1) (by omega)
  have hid : (storedRecord env i tx ent sec).EntitlementID =
      gorm.maxValueID tx.entitlement_values + 1 := by
    simp [storedRecord, h]
  have hpos : gorm.maxValueID tx.entitlement_values + 1 ≠ 0 := by
    have := gorm.maxValueID_nonneg tx.entitlement_values
    omega
  unfold gorm.preloadValue
  rw [hid]
  simp [appended, List.find?_append, hfresh, gorm.storedValue, hpos]

/-- When the tables are in step, a create path does not change what the lookup attaches
to the records that were there before. -/
theorem preload_appended_old {env : gorm.Env} {i : Nat} {tx : gorm.Store} {ent : Entitlement}
    {v : models.EntitlementValue} {sec : Int} {r : models.Entitlement}
    (h : tx.InStep) (hr : r ∈ tx.entitlements) :
    gorm.preloadValue (appended env i tx ent v sec) r = gorm.preloadValue tx r := by
  unfold gorm.Store.InStep at h
  unfold gorm.preloadValue
  by_cases hz : r.EntitlementID = 0
  · simp [hz]
  · simp only [hz, if_false, appended, List.find?_append]
    cases hf : List.find? (fun w => w.ValueID == r.EntitlementID) tx.entitlement_values with
    | some w => rfl
    | none =>
      have hle := gorm.le_maxEntitlementID hr
      have hne : ¬ gorm.maxValueID tx.entitlement_values + 1 = r.EntitlementID := by omega
      simp [gorm.storedValue, hne]

theorem holds_appended_new {env : gorm.Env} {i : Nat} {tx : gorm.Store} {ent : Entitlement}
    {v : models.EntitlementValue} {sec : Int} (h : tx.InStep) :
    gorm.HoldsOwnValue (appended env i tx ent v sec) (storedRecord env i tx ent sec) := by
  refine ⟨?_, by rw [preload_appended_new h]; rfl⟩
  unfold gorm.Store.InStep at h
  simp [storedRecord, h]

theorem holds_appended_old {env : gorm.Env} {i : Nat} {tx : gorm.Store} {ent : Entitlement}
    {v : models.EntitlementValue} {sec : Int} {r : models.Entitlement}
    (h : tx.InStep) (hr : r ∈ tx.entitlements) (hh : gorm.HoldsOwnValue tx r) :
    gorm.HoldsOwnValue (appended env i tx ent v sec) r :=
  ⟨hh.1, by rw [preload_appended_old h hr]; exact hh.2⟩

theorem decidesWrite_appended_other {env : gorm.Env} {i : Nat} {tx : gorm.Store}
    {ent : Entitlement} {v : models.EntitlementValue} {sec : Int}
    {t : String × String × String} (u : models.EntitlementValue)
    (h : tx.InStep) (ht : ent.triple ≠ t) :
    decidesWrite (appended env i tx ent v sec) t u = decidesWrite tx t u := by
  unfold decidesWrite
  rw [latest_appended_other ht]
  cases hf : gorm.latest tx t.1 t.2.1 t.2.2 with
  | none => rfl
  | some ex =>
    simp only
    rw [preload_appended_old h (gorm.latest_mem hf).1]

theorem latestValue_appended_same {env : gorm.Env} {i : Nat} {tx : gorm.Store} {ent : Entitlement}
    {v : models.EntitlementValue} {sec : Int} (h : tx.InStep)
    (hclock : ∀ r ∈ tx.recordsOf ent.triple, r.CreatedAt < env.now i) :
    (appended env i tx ent v sec).latestValue ent.triple = some (gorm.storedValue tx v) := by
  unfold gorm.Store.latestValue
  rw [latest_appended_same hclock]
  exact preload_appended_new h

theorem recordsOf_appended (env : gorm.Env) (i : Nat) (tx : gorm.Store) (ent : Entitlement)
    (v : models.EntitlementValue) (sec : Int) (t : String × String × String) :
    (appended env i tx ent v sec).recordsOf t =
      tx.recordsOf t ++ if ent.triple = t then [storedRecord env i tx ent sec] else [] := by
  have hm := matchesTriple_storedRecord env i tx ent sec t
  by_cases h : ent.triple = t
  · simp only [h, decide_True] at hm
    simp [gorm.Store.recordsOf, appended, List.filter_append, List.filter_cons, hm, h]
  · simp only [h, decide_False] at hm
    simp [gorm.Store.recordsOf, appended, List.filter_append, List.filter_cons, hm, h]

theorem recordsOf_appended_same (env : gorm.Env) (i : Nat) (tx : gorm.Store) (ent : Entitlement)
    (v : models.EntitlementValue) (sec : Int) :
    (appended env i tx ent v sec).recordsOf ent.triple =
      tx.recordsOf ent.triple ++ [storedRecord env i tx ent sec] := by
  rw [recordsOf_appended, if_pos rfl]

theorem compare_storedValue (tx : gorm.Store) (a b : models.EntitlementValue) :
    compareEntitlementValues (gorm.storedValue tx a) b = compareEntitlementValues a b := rfl

end repo

/-! ## Lemmas on the loop and the transaction -/

namespace repo

theorem reconcileFrom_append (env : gorm.Env) (pre post : List Entitlement) (i : Nat)
    (tx : gorm.Store) :
    reconcileFrom env i tx (pre ++ post) =
      match reconcileFrom env i tx pre with
      | .error a => .error a
      | .ok tx1 => reconcileFrom env (i + pre.length) tx1 post := by
  induction pre generalizing i tx with
  | nil => simp [reconcileFrom]
  | cons e rest ih =>
    simp only [List.cons_append, reconcileFrom, List.length_cons]
    cases reconcileOne env i tx e with
    | error a => rfl
    | ok tx1 =>
      simp only [List.append_eq]
      rw [ih]
      have : i + 1 + rest.length = i + (rest.length + 1) := by omega
      rw [this]

theorem UpdateEntitlements_ok_iff {env : gorm.Env} {db db1 : gorm.Store}
    {response : EntitlementResponse} :
    UpdateEntitlements env db response = (db1, .returned none) ↔
      env.beginErr = none ∧ env.commitErr = none ∧
        reconcileFrom env 0 db response.Entitlements = .ok db1 := by
  unfold UpdateEntitlements Transaction
  cases hb : env.beginErr <;> cases hc : env.commitErr <;>
    rcases hr : reconcileFrom env 0 db response.Entitlements with (_ | _) | tx <;> simp [hr]

theorem reconcileOne_creates {env : gorm.Env} {i : Nat} {tx : gorm.Store} {ent : Entitlement}
    {v : models.EntitlementValue} {sec : Int}
    (hl : env.lookupErr i = none) (hve : env.valueErr i = none) (hre : env.recordErr i = none)
    (hv : determineValueType ent.Value = .ok v) (hd : decidesWrite tx ent.triple v = true)
    (he : ent.ExpirationDate = some sec) :
    reconcileOne env i tx ent = .ok (appended env i tx ent v sec) := by
  rw [reconcileOne_eq]
  simp only [hv, hl, hd, if_true]
  exact (createVersion_ok_iff (determineValueType_ok_id hv)).mpr ⟨hve, hre, sec, he, rfl⟩

theorem reconcileOne_skips {env : gorm.Env} {i : Nat} {tx : gorm.Store} {ent : Entitlement}
    {v : models.EntitlementValue}
    (hl : env.lookupErr i = none) (hv : determineValueType ent.Value = .ok v)
    (hd : decidesWrite tx ent.triple v = false) :
    reconcileOne env i tx ent = .ok tx := by
  rw [reconcileOne_eq]
  simp [hv, hl, hd]

theorem UpdateEntitlements_single {env : gorm.Env} {db tx1 : gorm.Store} {ent : Entitlement}
    {tok : Option String} (hb : env.beginErr = none) (hc : env.commitErr = none)
    (h : reconcileOne env 0 db ent = .ok tx1) :
    UpdateEntitlements env db ⟨[ent], tok⟩ = (tx1, .returned none) := by
  rw [UpdateEntitlements_ok_iff]
  exact ⟨hb, hc, by simp [reconcileFrom, h]⟩

theorem decidesWrite_of_no_record {tx : gorm.Store} {t : String × String × String}
    {v : models.EntitlementValue} (h : gorm.latest tx t.1 t.2.1 t.2.2 = none) :
    decidesWrite tx t v = true := by
  simp [decidesWrite, h]

theorem decidesWrite_of_attached {tx : gorm.Store} {ent : Entitlement}
    {ex : models.Entitlement} {v w : models.EntitlementValue}
    (hl : gorm.latest tx ent.CustomerIdentifier ent.ProductCode ent.Dimension = some ex)
    (hw : gorm.preloadValue tx ex = some w) :
    decidesWrite tx ent.triple v = !compareEntitlementValues w v := by
  simp [decidesWrite, Entitlement.triple, hl, hw]

theorem fresh_value_id (tx : gorm.Store) :
    ∀ u ∈ tx.entitlement_values, u.ValueID ≠ gorm.maxValueID tx.entitlement_values + 1 := by
  intro u hu
  have := gorm.le_maxValueID hu
  omega

theorem decidesWrite_of_latestValue {tx : gorm.Store} {t : String × String × String}
    {v w : models.EntitlementValue} (h : tx.latestValue t = some w) :
    decidesWrite tx t v = !compareEntitlementValues w v := by
  unfold gorm.Store.latestValue at h
  unfold decidesWrite
  cases hl : gorm.latest tx t.1 t.2.1 t.2.2 with
  | none => simp [hl] at h
  | some ex =>
    simp only [hl] at h
    simp [h]

/-- An observation equal to the value the lookup attaches to the latest record of its
triple is skipped. -/
theorem reconcileOne_same {env : gorm.Env} {i : Nat} {tx : gorm.Store} {ent : Entitlement}
    {v w : models.EntitlementValue} (hl : env.lookupErr i = none)
    (hv : determineValueType ent.Value = .ok v) (hw : tx.latestValue ent.triple = some w)
    (hc : compareEntitlementValues w v = true) : reconcileOne env i tx ent = .ok tx :=
  reconcileOne_skips hl hv (by rw [decidesWrite_of_latestValue hw, hc]; rfl)

theorem reconcileFrom_quiet {env : gorm.Env} {tx : gorm.Store} :
    ∀ (batch : List Entitlement) (i : Nat), (∀ j, env.lookupErr j = none) →
      (∀ o ∈ batch, Quiet tx o) → reconcileFrom env i tx batch = .ok tx := by
  intro batch
  induction batch with
  | nil => intros; rfl
  | cons e rest ih =>
    intro i hl hs
    obtain ⟨v, hv, hd⟩ := hs e (List.mem_cons_self _ _)
    simp only [reconcileFrom]
    rw [reconcileOne_skips (hl i) hv hd]
    exact ih (i + 1) hl (fun o ho => hs o (List.mem_cons_of_mem _ ho))

theorem inStep_step {env : gorm.Env} {i : Nat} {tx tx1 : gorm.Store} {ent : Entitlement}
    (hs : tx.InStep) (h : reconcileOne env i tx ent = .ok tx1) : tx1.InStep := by
  obtain ⟨v, _, _, hcase⟩ := reconcileOne_ok h
  rcases hcase with ⟨_, rfl⟩ | ⟨_, _, _, sec, _, rfl⟩
  · exact hs
  · exact inStep_appended hs

theorem decidesWrite_step_other {env : gorm.Env} {i : Nat} {tx tx1 : gorm.Store}
    {ent : Entitlement} {t : String × String × String} (u : models.EntitlementValue)
    (hs : tx.InStep) (h : reconcileOne env i tx ent = .ok tx1) (ht : ent.triple ≠ t) :
    decidesWrite tx1 t u = decidesWrite tx t u := by
  obtain ⟨v, _, _, hcase⟩ := reconcileOne_ok h
  rcases hcase with ⟨_, rfl⟩ | ⟨_, _, _, sec, _, rfl⟩
  · rfl
  · exact decidesWrite_appended_other u hs ht

theorem decidesWrite_loop_other {env : gorm.Env} {t : String × String × String}
    (u : models.EntitlementValue) :
    ∀ (batch : List Entitlement) (i : Nat) (tx tx1 : gorm.Store), tx.InStep →
      reconcileFrom env i tx batch = .ok tx1 → (∀ q ∈ batch, q.triple ≠ t) →
      decidesWrite tx1 t u = decidesWrite tx t u := by
  intro batch
  induction batch with
  | nil =>
    intro i tx tx1 _ h _
    simp only [reconcileFrom, Except.ok.injEq] at h
    rw [h]
  | cons e rest ih =>
    intro i tx tx1 hs h hq
    simp only [reconcileFrom] at h
    cases hstep : reconcileOne env i tx e with
    | error a => simp [hstep] at h
    | ok tx2 =>
      simp only [hstep] at h
      rw [ih (i + 1) tx2 tx1 (inStep_step hs hstep) h
        (fun q hq1 => hq q (List.mem_cons_of_mem _ hq1))]
      exact decidesWrite_step_other u hs hstep (hq e (List.mem_cons_self _ _))

/-- After an iteration the loop body would skip the same observation, when the tables are
in step, the records of the observation's triple are older than the clock reading of
the iteration, and the value is not a NaN double. -/
theorem reconcileOne_quiet {env : gorm.Env} {i : Nat} {tx tx1 : gorm.Store} {ent : Entitlement}
    (hs : tx.InStep) (hc : ∀ r ∈ tx.recordsOf ent.triple, r.CreatedAt < env.now i)
    (h : reconcileOne env i tx ent = .ok tx1)
    (hn : ∀ v, determineValueType ent.Value = .ok v → NoNaN v) : Quiet tx1 ent := by
  obtain ⟨v, hv, _, hcase⟩ := reconcileOne_ok h
  rcases hcase with ⟨hd, rfl⟩ | ⟨_, _, _, sec, _, rfl⟩
  · exact ⟨v, hv, hd⟩
  · obtain ⟨p, hp⟩ := determineValueType_ok_tagged hv
    refine ⟨v, hv, ?_⟩
    have hcmp : compareEntitlementValues (gorm.storedValue tx v) v = true :=
      compare_copy_self _ hp (hn v hv)
    rw [decidesWrite_of_latestValue (latestValue_appended_same hs hc), hcmp]
    rfl

theorem clockFresh_head {env : gorm.Env} {i : Nat} {tx : gorm.Store} {e : Entitlement}
    {rest : List Entitlement} (h : ClockFresh env i tx (e :: rest)) :
    ∀ r ∈ tx.recordsOf e.triple, r.CreatedAt < env.now i := by
  intro r hr
  simpa using h 0 e (by simp) r hr

theorem advancesFor_tail {env : gorm.Env} {i : Nat} {e : Entitlement}
    {rest : List Entitlement} {t : String × String × String}
    (h : AdvancesFor env i (e :: rest) t) : AdvancesFor env (i + 1) rest t := by
  intro j k a b hjk ha hb hat hbt
  have := h (j + 1) (k + 1) a b (by omega) (by simpa using ha) (by simpa using hb) hat hbt
  have e1 : i + 1 + j = i + (j + 1) := by omega
  have e2 : i + 1 + k = i + (k + 1) := by omega
  rw [e1, e2]
  exact this

theorem freshFor_head {env : gorm.Env} {i : Nat} {tx : gorm.Store} {e : Entitlement}
    {rest : List Entitlement} (h : FreshFor env i tx (e :: rest) e.triple) :
    ∀ r ∈ tx.recordsOf e.triple, r.CreatedAt < env.now i := by
  intro r hr
  simpa using h 0 e (by simp) rfl r hr

/-- The clock stays fresh for the later observations of `t`: a record the iteration
created for `t` is older than the readings taken for them. -/
theorem freshFor_step {env : gorm.Env} {i : Nat} {tx tx1 : gorm.Store} {e : Entitlement}
    {rest : List Entitlement} {t : String × String × String}
    (hf : FreshFor env i tx (e :: rest) t) (ha : AdvancesFor env i (e :: rest) t)
    (h : reconcileOne env i tx e = .ok tx1) : FreshFor env (i + 1) tx1 rest t := by
  intro k q hq hqt r hr
  have e1 : i + 1 + k = i + (k + 1) := by omega
  have hold : ∀ r ∈ tx.recordsOf t, r.CreatedAt < env.now (i + 1 + k) := by
    intro r hr
    rw [e1]
    exact hf (k + 1) q (by simpa using hq) hqt r hr
  obtain ⟨v, _, _, hcase⟩ := reconcileOne_ok h
  rcases hcase with ⟨_, rfl⟩ | ⟨_, _, _, sec, _, rfl⟩
  · exact hold r hr
  · rw [recordsOf_appended, List.mem_append] at hr
    rcases hr with hr | hr
    · exact hold r hr
    · by_cases het : e.triple = t
      · simp only [het, if_true, List.mem_singleton] at hr
        subst hr
        have := ha 0 (k + 1) e q (by omega) (by simp) (by simpa using hq) het hqt
        rw [e1]
        simpa [storedRecord] using this
      · simp [het] at hr

/-- The clock stays fresh for the rest of the batch: a record the iteration created is
older than the readings taken for later observations of its triple. -/
theorem clockFresh_step {env : gorm.Env} {i : Nat} {tx tx1 : gorm.Store} {e : Entitlement}
    {rest : List Entitlement} (hf : ClockFresh env i tx (e :: rest))
    (ha : ∀ k q, rest[k]? = some q → e.triple = q.triple → env.now i < env.now (i + 1 + k))
    (h : reconcileOne env i tx e = .ok tx1) : ClockFresh env (i + 1) tx1 rest := by
  intro k q hq r hr
  have e1 : i + 1 + k = i + (k + 1) := by omega
  have hold : ∀ r ∈ tx.recordsOf q.triple, r.CreatedAt < env.now (i + 1 + k) := by
    intro r hr
    rw [e1]
    exact hf (k + 1) q (by simpa using hq) r hr
  obtain ⟨v, _, _, hcase⟩ := reconcileOne_ok h
  rcases hcase with ⟨_, rfl⟩ | ⟨_, _, _, sec, _, rfl⟩
  · exact hold r hr
  · rw [recordsOf_appended, List.mem_append] at hr
    rcases hr with hr | hr
    · exact hold r hr
    · by_cases ht : e.triple = q.triple
      · simp only [ht, if_true, List.mem_singleton] at hr
        subst hr
        simpa [storedRecord] using ha k q hq ht
      · simp [ht] at hr

/-- After a successful run of the loop on a batch with pairwise distinct triples, the loop
body would skip every observation of the batch. -/
theorem reconcileFrom_quiet_nodup {env : gorm.Env} :
    ∀ (batch : List Entitlement) (i : Nat) (tx tx1 : gorm.Store), tx.InStep →
      ClockFresh env i tx batch →
      (batch.map Entitlement.triple).Nodup →
      reconcileFrom env i tx batch = .ok tx1 →
      (∀ o ∈ batch, ∀ v, determineValueType o.Value = .ok v → NoNaN v) →
      ∀ o ∈ batch, Quiet tx1 o := by
  intro batch
  induction batch with
  | nil => intro i tx tx1 _ _ _ _ _ o ho; cases ho
  | cons e rest ih =>
    intro i tx tx1 hs hc hd h hn o ho
    simp only [reconcileFrom] at h
    simp only [List.map_cons, List.nodup_cons, List.mem_map, not_exists, not_and] at hd
    cases hstep : reconcileOne env i tx e with
    | error a => simp [hstep] at h
    | ok tx2 =>
      simp only [hstep] at h
      have hother : ∀ q ∈ rest, q.triple ≠ e.triple := fun q hq => hd.1 q hq
      rcases List.mem_cons.mp ho with rfl | ho
      · obtain ⟨v, hv, hq⟩ := reconcileOne_quiet hs (clockFresh_head hc) hstep
          (hn o (List.mem_cons_self _ _))
        refine ⟨v, hv, ?_⟩
        rw [decidesWrite_loop_other v rest (i + 1) tx2 tx1 (inStep_step hs hstep) h hother]
        exact hq
      · refine ih (i + 1) tx2 tx1 (inStep_step hs hstep) ?_ hd.2 h
          (fun q hq => hn q (List.mem_cons_of_mem _ hq)) o ho
        refine clockFresh_step hc ?_ hstep
        intro k q hq ht
        exact absurd ht.symm (hother q (List.getElem?_mem hq))

theorem held_step {env : gorm.Env} {i : Nat} {tx tx1 : gorm.Store} {ent : Entitlement}
    {t : String × String × String} (hs : tx.InStep)
    (h : reconcileOne env i tx ent = .ok tx1) (hh : Held tx t) : Held tx1 t := by
  obtain ⟨v, _, _, hcase⟩ := reconcileOne_ok h
  rcases hcase with ⟨_, rfl⟩ | ⟨_, _, _, sec, _, rfl⟩
  · exact hh
  · intro ex hex
    by_cases ht : ent.triple = t
    · subst ht
      rcases latest_appended_cases hex with rfl | hold
      · exact holds_appended_new hs
      · exact holds_appended_old hs (gorm.latest_mem hold).1 (hh ex hold)
    · rw [latest_appended_other ht] at hex
      exact holds_appended_old hs (gorm.latest_mem hex).1 (hh ex hex)

/-- An iteration settles its observation, when the tables are in step, the latest record
of the observation's triple holds its own value, and the records of the triple are older
than the clock reading of the iteration. -/
theorem reconcileOne_settles {env : gorm.Env} {i : Nat} {tx tx1 : gorm.Store} {ent : Entitlement}
    (hs : tx.InStep) (hh : Held tx ent.triple)
    (hc : ∀ r ∈ tx.recordsOf ent.triple, r.CreatedAt < env.now i)
    (h : reconcileOne env i tx ent = .ok tx1)
    (hn : ∀ v, determineValueType ent.Value = .ok v → NoNaN v) : Settled tx1 ent := by
  obtain ⟨v, hv, _, hcase⟩ := reconcileOne_ok h
  rcases hcase with ⟨hd, rfl⟩ | ⟨_, _, _, sec, _, rfl⟩
  · unfold decidesWrite at hd
    cases hlat : gorm.latest tx1 ent.triple.1 ent.triple.2.1 ent.triple.2.2 with
    | none => simp [hlat] at hd
    | some ex =>
      obtain ⟨hal, hload⟩ := hh ex hlat
      cases hp : gorm.preloadValue tx1 ex with
      | none => simp [hp] at hload
      | some w =>
        simp only [hlat, hp, Bool.not_eq_false'] at hd
        exact ⟨v, ex, w, hv, hlat, hp, hal, hd⟩
  · obtain ⟨p, hp⟩ := determineValueType_ok_tagged hv
    exact ⟨v, storedRecord env i tx ent sec, gorm.storedValue tx v, hv,
      latest_appended_same hc, preload_appended_new hs, (holds_appended_new (v := v) hs).1,
      compare_copy_self _ hp (hn v hv)⟩

theorem settled_step_other {env : gorm.Env} {i : Nat} {tx tx1 : gorm.Store}
    {ent o : Entitlement} (hs : tx.InStep)
    (h : reconcileOne env i tx ent = .ok tx1) (ht : ent.triple ≠ o.triple)
    (hset : Settled tx o) : Settled tx1 o := by
  obtain ⟨v, _, _, hcase⟩ := reconcileOne_ok h
  rcases hcase with ⟨_, rfl⟩ | ⟨_, _, _, sec, _, rfl⟩
  · exact hset
  · obtain ⟨u, ex, w, hu, hlat, hw, hid, hcmp⟩ := hset
    refine ⟨u, ex, w, hu, ?_, ?_, hid, hcmp⟩
    · have hsame : gorm.latest (appended env i tx ent v sec) o.triple.1 o.triple.2.1 o.triple.2.2
          = gorm.latest tx o.triple.1 o.triple.2.1 o.triple.2.2 := latest_appended_other ht
      exact hsame.trans hlat
    · rw [preload_appended_old hs (gorm.latest_mem hlat).1]
      exact hw

theorem settled_loop_other {env : gorm.Env} {o : Entitlement} :
    ∀ (batch : List Entitlement) (i : Nat) (tx tx1 : gorm.Store), tx.InStep →
      reconcileFrom env i tx batch = .ok tx1 → (∀ q ∈ batch, q.triple ≠ o.triple) →
      Settled tx o → Settled tx1 o := by
  intro batch
  induction batch with
  | nil =>
    intro i tx tx1 _ h _ hset
    simp only [reconcileFrom, Except.ok.injEq] at h
    rw [← h]
    exact hset
  | cons e rest ih =>
    intro i tx tx1 hs h hq hset
    simp only [reconcileFrom] at h
    cases hstep : reconcileOne env i tx e with
    | error a => simp [hstep] at h
    | ok tx2 =>
      simp only [hstep] at h
      exact ih (i + 1) tx2 tx1 (inStep_step hs hstep) h
        (fun q hq1 => hq q (List.mem_cons_of_mem _ hq1))
        (settled_step_other hs hstep (hq e (List.mem_cons_self _ _)) hset)

/-- After a successful run of the loop, the last observation of a triple is settled. -/
theorem reconcileFrom_settles {env : gorm.Env} {o : Entitlement} :
    ∀ (batch : List Entitlement) (i : Nat) (tx tx1 : gorm.Store), tx.InStep →
      Held tx o.triple → FreshFor env i tx batch o.triple → AdvancesFor env i batch o.triple →
      reconcileFrom env i tx batch = .ok tx1 →
      ∀ pre post, batch = pre ++ o :: post → (∀ q ∈ post, q.triple ≠ o.triple) →
        (∀ v, determineValueType o.Value = .ok v → NoNaN v) → Settled tx1 o := by
  intro batch
  induction batch with
  | nil =>
    intro i tx tx1 _ _ _ _ _ pre post hb
    simp at hb
  | cons e rest ih =>
    intro i tx tx1 hs hh hf ha h pre post hb hlast hn
    simp only [reconcileFrom] at h
    cases hstep : reconcileOne env i tx e with
    | error a => simp [hstep] at h
    | ok tx2 =>
      simp only [hstep] at h
      cases pre with
      | nil =>
        simp only [List.nil_append, List.cons.injEq] at hb
        obtain ⟨rfl, rfl⟩ := hb
        exact settled_loop_other rest (i + 1) tx2 tx1 (inStep_step hs hstep) h hlast
          (reconcileOne_settles hs hh (freshFor_head hf) hstep hn)
      | cons e1 pre1 =>
        simp only [List.cons_append, List.cons.injEq] at hb
        exact ih (i + 1) tx2 tx1 (inStep_step hs hstep) (held_step hs hstep hh)
          (freshFor_step hf ha hstep) (advancesFor_tail ha) h
          pre1 post hb.2 hlast hn

end repo

/-! ## Typed equality -/

namespace repo

theorem taggedPayload_some {v : models.EntitlementValue} {p : Payload}
    (h : taggedPayload v = some p) :
    (∃ b, p = .boolean b ∧ v.ValueType = models.ValueTypeBoolean ∧ v.BooleanValue = some b ∧
        v.DoubleValue = none ∧ v.IntegerValue = none ∧ v.StringValue = none) ∨
    (∃ x, p = .double x ∧ v.ValueType = models.ValueTypeDouble ∧ v.BooleanValue = none ∧
        v.DoubleValue = some x ∧ v.IntegerValue = none ∧ v.StringValue = none) ∨
    (∃ n, p = .integer n ∧ v.ValueType = models.ValueTypeInteger ∧ v.BooleanValue = none ∧
        v.DoubleValue = none ∧ v.IntegerValue = some n ∧ v.StringValue = none) ∨
    (∃ s, p = .string s ∧ v.ValueType = models.ValueTypeString ∧ v.BooleanValue = none ∧
        v.DoubleValue = none ∧ v.IntegerValue = none ∧ v.StringValue = some s) := by
  rcases v with ⟨id, b, x, n, s, t⟩
  cases b <;> cases x <;> cases n <;> cases s <;> simp [taggedPayload] at h
  all_goals
    obtain ⟨ht, hp⟩ := h
    simp [ht, ← hp]

/-- On values that have exactly the payload named by their tag, the comparison of the
source is the typed equality of the specification. -/
theorem compare_eq_typedEqual {a b : models.EntitlementValue}
    (ha : (taggedPayload a).isSome = true) (hb : (taggedPayload b).isSome = true) :
    compareEntitlementValues a b = typedEqual a b := by
  obtain ⟨p, hp⟩ := Option.isSome_iff_exists.mp ha
  obtain ⟨q, hq⟩ := Option.isSome_iff_exists.mp hb
  simp only [typedEqual, hp, hq]
  rcases a with ⟨ida, ba, xa, na, sa, ta⟩
  rcases b with ⟨idb, bb, xb, nb, sb, tb⟩
  rcases taggedPayload_some hp with ⟨_, rfl, h1, h2, h3, h4, h5⟩ | ⟨_, rfl, h1, h2, h3, h4, h5⟩ |
      ⟨_, rfl, h1, h2, h3, h4, h5⟩ | ⟨_, rfl, h1, h2, h3, h4, h5⟩ <;>
    rcases taggedPayload_some hq with ⟨_, rfl, k1, k2, k3, k4, k5⟩ | ⟨_, rfl, k1, k2, k3, k4, k5⟩ |
      ⟨_, rfl, k1, k2, k3, k4, k5⟩ | ⟨_, rfl, k1, k2, k3, k4, k5⟩ <;>
    simp only at h1 h2 h3 h4 h5 k1 k2 k3 k4 k5 <;>
    subst h1 h2 h3 h4 h5 k1 k2 k3 k4 k5 <;>
    simp [compareEntitlementValues, Payload.eq, Go.DeepEqual, models.ValueTypeBoolean,
      models.ValueTypeDouble, models.ValueTypeInteger, models.ValueTypeString]

theorem compare_false_of_tag_ne {a b : models.EntitlementValue} (h : a.ValueType ≠ b.ValueType) :
    compareEntitlementValues a b = false := by
  simp [compareEntitlementValues, h]

end repo

/-! ## Claims -/

namespace repo

/-- C8. Typed equality: for values `a` and `b` that each have exactly the payload field
named by their tag populated, `compareEntitlementValues a b` is true if and only if the
tags are the same and the payloads stored under the tag are equal (with Go's `==` at the
payload's type); and whenever the tags differ the result is false. The function is total:
it returns a boolean on every input and has no error result. -/
theorem compareEntitlementValues_typed_equality (a b : models.EntitlementValue)
    (ha : (taggedPayload a).isSome = true) (hb : (taggedPayload b).isSome = true) :
    (compareEntitlementValues a b = true ↔
        a.ValueType = b.ValueType ∧
          ∃ p q, taggedPayload a = some p ∧ taggedPayload b = some q ∧ Payload.eq p q = true) ∧
      (a.ValueType ≠ b.ValueType → compareEntitlementValues a b = false) := by
  refine ⟨?_, compare_false_of_tag_ne⟩
  rw [compare_eq_typedEqual ha hb]
  obtain ⟨p, hp⟩ := Option.isSome_iff_exists.mp ha
  obtain ⟨q, hq⟩ := Option.isSome_iff_exists.mp hb
  simp [typedEqual, hp, hq]

/-- C8, at concrete values: a boolean `true` against an integer `1` is a difference, and
two integer rows holding `5` under different `ValueID`s are equal. -/
theorem compareEntitlementValues_typed_equality_witness :
    compareEntitlementValues (gorm.booleanRow 1 true) (gorm.integerRow 2 1) = false ∧
      compareEntitlementValues (gorm.integerRow 1 5) (gorm.integerRow 9 5) = true :=
  ⟨(compareEntitlementValues_typed_equality _ _ (by decide) (by decide)).2 (by decide),
    (compareEntitlementValues_typed_equality _ _ (by decide) (by decide)).1.mpr
      ⟨by decide, .integer 5, .integer 5, by decide, by decide, by decide⟩⟩

end repo

namespace gorm

theorem Env.ideal_healthy (t0 : Int) : (Env.ideal t0).Healthy :=
  ⟨rfl, rfl, fun _ => ⟨rfl, rfl, rfl⟩⟩

theorem Env.inZone_healthy (t0 offset : Int) : (Env.inZone t0 offset).Healthy :=
  ⟨rfl, rfl, fun _ => ⟨rfl, rfl, rfl⟩⟩

end gorm

namespace repo

/-- C7. Create on first sight: for an observation with a resolvable value `v` and an
expiration `sec`, an instant whose local year has four digits, whose triple has no record
in the store the loop sees, the iteration at any position `i` appends exactly one Value
row, `v` under a fresh `ValueID`, and exactly one record with the observation's customer
identifier, product code and dimension, whose `ValueID` is that row's and whose
`ExpirationDate` is the RFC 3339 rendering of the instant `sec` seconds after the Unix
epoch in the local zone; a call with that one observation returns nil with exactly these
two rows added. No storage call fails. The rendering is `YYYY-MM-DDThh:mm:ss` on the local
clock followed by `Z` or by the offset as `±hh:mm`; the last part of the statement gives
it in UTC at the first and the last second of every month of 2023 and of 2024, on both
sides of the epoch, around the end of February in the years 1600, 1900, 2000, 2100, 2200,
2300 and 2400, and at the first and the last instant with a four-digit year, and then in
zones east and west of UTC, one of them not a whole number of minutes from it. -/
theorem create_on_first_sight (env : gorm.Env) (o : Entitlement) (tok : Option String)
    (v : models.EntitlementValue) (sec : Int)
    (henv : env.Healthy)
    (hres : determineValueType o.Value = .ok v)
    (hexp : o.ExpirationDate = some sec)
    (hyear : Go.fourDigitYear (env.zoneOffset sec) sec = true) :
    (∀ (i : Nat) (tx : gorm.Store),
      gorm.latest tx o.CustomerIdentifier o.ProductCode o.Dimension = none →
      reconcileOne env i tx o =
          .ok { entitlement_values := tx.entitlement_values ++
                  [{ v with ValueID := gorm.maxValueID tx.entitlement_values + 1 }]
                entitlements := tx.entitlements ++
                  [{ EntitlementID := gorm.maxEntitlementID tx.entitlements + 1
                     CustomerIdentifier := o.CustomerIdentifier
                     ProductCode := o.ProductCode
                     Dimension := o.Dimension
                     ExpirationDate := Go.formatRFC3339 (env.zoneOffset sec) sec
                     ValueID := gorm.maxValueID tx.entitlement_values + 1
                     CreatedAt := env.now i
                     UpdatedAt := env.now i }] } ∧
        ∀ u ∈ tx.entitlement_values, u.ValueID ≠ gorm.maxValueID tx.entitlement_values + 1) ∧
    (∀ db : gorm.Store,
      gorm.latest db o.CustomerIdentifier o.ProductCode o.Dimension = none →
      UpdateEntitlements env db ⟨[o], tok⟩ =
        ({ entitlement_values := db.entitlement_values ++
              [{ v with ValueID := gorm.maxValueID db.entitlement_values + 1 }]
           entitlements := db.entitlements ++
              [{ EntitlementID := gorm.maxEntitlementID db.entitlements + 1
                 CustomerIdentifier := o.CustomerIdentifier
                 ProductCode := o.ProductCode
                 Dimension := o.Dimension
                 ExpirationDate := Go.formatRFC3339 (env.zoneOffset sec) sec
                 ValueID := gorm.maxValueID db.entitlement_values + 1
                 CreatedAt := env.now 0
                 UpdatedAt := env.now 0 }] },
          .returned none)) ∧
    (([1672531200, 1675209599, 1675209600, 1677628799, 1677628800, 1680307199,
        1680307200, 1682899199, 1682899200, 1685577599, 1685577600, 1688169599,
        1688169600, 1690847999, 1690848000, 1693526399, 1693526400, 1696118399,
        1696118400, 1698796799, 1698796800, 1701388799, 1701388800, 1704067199,
        1704067200, 1706745599, 1706745600, 1709251199, 1709251200, 1711929599,
        1711929600, 1714521599, 1714521600, 1717199999, 1717200000, 1719791999,
        1719792000, 1722470399, 1722470400, 1725148799, 1725148800, 1727740799,
        1727740800, 1730419199, 1730419200, 1733011199, 1733011200, 1735689599, 0, (-1),
        1700000000, (-2203891201), (-2203891200), 951825600, 951868800, 4107542399,
        4107542400, 7263216000, 10418889600, 13574563200, (-11670998400),
        (-62135596800), 253402300799, 2147483647, 946684799, (-62167219200)].map
          (Go.formatRFC3339 0)
        = ["2023-01-01T00:00:00Z", "2023-01-31T23:59:59Z", "2023-02-01T00:00:00Z",
          "2023-02-28T23:59:59Z", "2023-03-01T00:00:00Z", "2023-03-31T23:59:59Z",
          "2023-04-01T00:00:00Z", "2023-04-30T23:59:59Z", "2023-05-01T00:00:00Z",
          "2023-05-31T23:59:59Z", "2023-06-01T00:00:00Z", "2023-06-30T23:59:59Z",
          "2023-07-01T00:00:00Z", "2023-07-31T23:59:59Z", "2023-08-01T00:00:00Z",
          "2023-08-31T23:59:59Z", "2023-09-01T00:00:00Z", "2023-09-30T23:59:59Z",
          "2023-10-01T00:00:00Z", "2023-10-31T23:59:59Z", "2023-11-01T00:00:00Z",
          "2023-11-30T23:59:59Z", "2023-12-01T00:00:00Z", "2023-12-31T23:59:59Z",
          "2024-01-01T00:00:00Z", "2024-01-31T23:59:59Z", "2024-02-01T00:00:00Z",
          "2024-02-29T23:59:59Z", "2024-03-01T00:00:00Z", "2024-03-31T23:59:59Z",
          "2024-04-01T00:00:00Z", "2024-04-30T23:59:59Z", "2024-05-01T00:00:00Z",
          "2024-05-31T23:59:59Z", "2024-06-01T00:00:00Z", "2024-06-30T23:59:59Z",
          "2024-07-01T00:00:00Z", "2024-07-31T23:59:59Z", "2024-08-01T00:00:00Z",
          "2024-08-31T23:59:59Z", "2024-09-01T00:00:00Z", "2024-09-30T23:59:59Z",
          "2024-10-01T00:00:00Z", "2024-10-31T23:59:59Z", "2024-11-01T00:00:00Z",
          "2024-11-30T23:59:59Z", "2024-12-01T00:00:00Z", "2024-12-31T23:59:59Z",
          "1970-01-01T00:00:00Z", "1969-12-31T23:59:59Z", "2023-11-14T22:13:20Z",
          "1900-02-28T23:59:59Z", "1900-03-01T00:00:00Z", "2000-02-29T12:00:00Z",
          "2000-03-01T00:00:00Z", "2100-02-28T23:59:59Z", "2100-03-01T00:00:00Z",
          "2200-03-01T00:00:00Z", "2300-03-01T00:00:00Z", "2400-02-29T00:00:00Z",
          "1600-02-29T00:00:00Z", "0001-01-01T00:00:00Z", "9999-12-31T23:59:59Z",
          "2038-01-19T03:14:07Z", "1999-12-31T23:59:59Z", "0000-01-01T00:00:00Z"]) ∧
      Go.formatRFC3339 19800 1700000000 = "2023-11-15T03:43:20+05:30" ∧
      Go.formatRFC3339 (-28800) 1709251199 = "2024-02-29T15:59:59-08:00" ∧
      Go.formatRFC3339 3600 4102444799 = "2100-01-01T00:59:59+01:00" ∧
      Go.formatRFC3339 (-17762) (-3000000000) = "1874-12-07T13:43:58-04:56") := by
  obtain ⟨hb, hc, hf⟩ := henv
  have hshape : ∀ (i : Nat) (tx : gorm.Store), appended env i tx o v sec =
      { entitlement_values := tx.entitlement_values ++
          [{ v with ValueID := gorm.maxValueID tx.entitlement_values + 1 }]
        entitlements := tx.entitlements ++
          [{ EntitlementID := gorm.maxEntitlementID tx.entitlements + 1
             CustomerIdentifier := o.CustomerIdentifier
             ProductCode := o.ProductCode
             Dimension := o.Dimension
             ExpirationDate := Go.formatRFC3339 (env.zoneOffset sec) sec
             ValueID := gorm.maxValueID tx.entitlement_values + 1
             CreatedAt := env.now i
             UpdatedAt := env.now i }] } := by
    intro i tx
    simp only [appended, storedRecord, gorm.storedValue, formatExpiration, hyear, if_true]
  have hstep : ∀ (i : Nat) (tx : gorm.Store),
      gorm.latest tx o.CustomerIdentifier o.ProductCode o.Dimension = none →
      reconcileOne env i tx o = .ok (appended env i tx o v sec) := fun i tx hnone =>
    reconcileOne_creates (hf i).1 (hf i).2.1 (hf i).2.2 hres
      (decidesWrite_of_no_record (t := o.triple) hnone) hexp
  refine ⟨fun i tx hnone => ⟨?_, fresh_value_id tx⟩, fun db hnone => ?_, ?_⟩
  · rw [hstep i tx hnone, hshape]
  · rw [UpdateEntitlements_single hb hc (hstep 0 db hnone), hshape]
  · refine ⟨by decide, by decide, by decide, by decide, by decide⟩

/-- C7, at the scenario of the specification and in a second zone: on an empty store the
batch [(c1, p1, seats, integer 5, 1700000000)] yields one Value row (type integer, value 5)
and one record, whose expiration is 2023-11-14T22:13:20Z in UTC and
2023-11-15T03:43:20+05:30 in a zone five and a half hours east of it. -/
theorem create_on_first_sight_witness :
    UpdateEntitlements (gorm.Env.ideal 0) gorm.Store.empty
        ⟨[observe "seats" (integerOf 5) (some 1700000000)], none⟩
      = (⟨[{ ValueID := 1, BooleanValue := none, DoubleValue := none, IntegerValue := some 5,
             StringValue := none, ValueType := "integer" }],
          [{ EntitlementID := 1, CustomerIdentifier := "c1", ProductCode := "p1",
             Dimension := "seats", ExpirationDate := "2023-11-14T22:13:20Z", ValueID := 1,
             CreatedAt := 0, UpdatedAt := 0 }]⟩, .returned none) ∧
    UpdateEntitlements (gorm.Env.inZone 0 19800) gorm.Store.empty
        ⟨[observe "seats" (integerOf 5) (some 1700000000)], none⟩
      = (⟨[{ ValueID := 1, BooleanValue := none, DoubleValue := none, IntegerValue := some 5,
             StringValue := none, ValueType := "integer" }],
          [{ EntitlementID := 1, CustomerIdentifier := "c1", ProductCode := "p1",
             Dimension := "seats", ExpirationDate := "2023-11-15T03:43:20+05:30", ValueID := 1,
             CreatedAt := 0, UpdatedAt := 0 }]⟩, .returned none) :=
  ⟨((create_on_first_sight (gorm.Env.ideal 0) (observe "seats" (integerOf 5) (some 1700000000))
      none (gorm.integerRow 0 5) 1700000000 (gorm.Env.ideal_healthy 0) rfl rfl (by decide)).2.1
        gorm.Store.empty rfl).trans (by decide),
    ((create_on_first_sight (gorm.Env.inZone 0 19800)
      (observe "seats" (integerOf 5) (some 1700000000))
      none (gorm.integerRow 0 5) 1700000000 (gorm.Env.inZone_healthy 0 19800) rfl rfl
        (by decide)).2.1 gorm.Store.empty rfl).trans (by decide)⟩

end repo

/-! ## Writes only append -/

namespace repo

theorem reconcileFrom_extends {env : gorm.Env} :
    ∀ (batch : List Entitlement) (i : Nat) (tx tx1 : gorm.Store),
      reconcileFrom env i tx batch = .ok tx1 →
      tx.entitlement_values <+: tx1.entitlement_values ∧ tx.entitlements <+: tx1.entitlements := by
  intro batch
  induction batch with
  | nil =>
    intro i tx tx1 h
    simp only [reconcileFrom, Except.ok.injEq] at h
    subst h
    exact ⟨List.prefix_refl _, List.prefix_refl _⟩
  | cons e rest ih =>
    intro i tx tx1 h
    simp only [reconcileFrom] at h
    cases hs : reconcileOne env i tx e with
    | error a => simp [hs] at h
    | ok tx2 =>
      simp only [hs] at h
      obtain ⟨h1, h2⟩ := ih (i + 1) tx2 tx1 h
      obtain ⟨v, _, _, hcase⟩ := reconcileOne_ok hs
      rcases hcase with ⟨_, rfl⟩ | ⟨_, _, _, sec, _, rfl⟩
      · exact ⟨h1, h2⟩
      · exact ⟨(List.prefix_append _ _).trans h1, (List.prefix_append _ _).trans h2⟩

/-- Whatever the outcome, the store after the call is the body's result or the store
before it. -/
theorem UpdateEntitlements_store (env : gorm.Env) (db : gorm.Store)
    (response : EntitlementResponse) :
    (UpdateEntitlements env db response).1 = db ∨
      reconcileFrom env 0 db response.Entitlements = .ok (UpdateEntitlements env db response).1 := by
  unfold UpdateEntitlements Transaction
  cases hb : env.beginErr <;> cases hc : env.commitErr <;>
    rcases hr : reconcileFrom env 0 db response.Entitlements with (_ | _) | tx <;> simp [hr]

/-- C10. Never updates or deletes: for every store and batch, the Value rows and the
entitlement records present before a call to `UpdateEntitlements` are, unchanged and in
the same order, the first rows of the two tables after it: the store before the call is
a prefix of the store after it, in particular when the call succeeds; so every row
present before is present afterwards. -/
theorem never_updates_or_deletes (env : gorm.Env) (db : gorm.Store)
    (response : EntitlementResponse) :
    db.entitlement_values <+: (UpdateEntitlements env db response).1.entitlement_values ∧
      db.entitlements <+: (UpdateEntitlements env db response).1.entitlements ∧
      (∀ v ∈ db.entitlement_values, v ∈ (UpdateEntitlements env db response).1.entitlement_values) ∧
      (∀ r ∈ db.entitlements, r ∈ (UpdateEntitlements env db response).1.entitlements) := by
  have key : db.entitlement_values <+: (UpdateEntitlements env db response).1.entitlement_values ∧
      db.entitlements <+: (UpdateEntitlements env db response).1.entitlements := by
    rcases UpdateEntitlements_store env db response with h | h
    · rw [h]; exact ⟨List.prefix_refl _, List.prefix_refl _⟩
    · exact reconcileFrom_extends _ 0 db _ h
  exact ⟨key.1, key.2, fun v hv => key.1.subset hv, fun r hr => key.2.subset hr⟩

end repo

/-! ## Aborted calls -/

namespace repo

theorem reconcileOne_invalid {env : gorm.Env} {i : Nat} {tx : gorm.Store} {ent : Entitlement}
    (h : ent.Value.allUnset = true) :
    reconcileOne env i tx ent = .error (.returned .ErrInvalidValue) := by
  rw [reconcileOne_eq]
  rcases determineValueType_cases ent.Value with ⟨_, he⟩ | ⟨hne, _⟩
  · simp [he]
  · rw [h] at hne; cases hne

/-- With no storage failure and an expiration present, an iteration either rejects an
unresolvable value or completes. -/
theorem reconcileOne_progress {env : gorm.Env} {i : Nat} (tx : gorm.Store) {ent : Entitlement}
    (hl : env.lookupErr i = none) (hve : env.valueErr i = none) (hre : env.recordErr i = none)
    (he : ent.ExpirationDate.isSome = true) :
    reconcileOne env i tx ent = .error (.returned .ErrInvalidValue) ∨
      ∃ tx1, reconcileOne env i tx ent = .ok tx1 := by
  rcases determineValueType_cases ent.Value with ⟨hu, _⟩ | ⟨_, v, hv, _, _⟩
  · exact Or.inl (reconcileOne_invalid hu)
  · obtain ⟨sec, hsec⟩ := Option.isSome_iff_exists.mp he
    cases hd : decidesWrite tx ent.triple v with
    | false => exact Or.inr ⟨tx, reconcileOne_skips hl hv hd⟩
    | true => exact Or.inr ⟨_, reconcileOne_creates hl hve hre hv hd hsec⟩

theorem reconcileFrom_invalid {env : gorm.Env} {o : Entitlement} {post : List Entitlement}
    (hunset : o.Value.allUnset = true) :
    ∀ (pre : List Entitlement) (i : Nat) (tx : gorm.Store),
      (∀ q ∈ pre, q.ExpirationDate.isSome = true) →
      (∀ j, i ≤ j → j < i + pre.length →
        env.lookupErr j = none ∧ env.valueErr j = none ∧ env.recordErr j = none) →
      reconcileFrom env i tx (pre ++ o :: post) = .error (.returned .ErrInvalidValue) := by
  intro pre
  induction pre with
  | nil =>
    intro i tx _ _
    simp [reconcileFrom, reconcileOne_invalid hunset]
  | cons e rest ih =>
    intro i tx hexp hf
    obtain ⟨h1, h2, h3⟩ := hf i (le_refl _) (by simp)
    simp only [List.cons_append, reconcileFrom]
    rcases reconcileOne_progress tx h1 h2 h3 (hexp e (List.mem_cons_self _ _)) with
      hbad | ⟨tx1, hok⟩
    · simp [hbad]
    · simp only [hok]
      refine ih (i + 1) tx1 (fun q hq => hexp q (List.mem_cons_of_mem _ hq)) ?_
      intro j hj1 hj2
      exact hf j (by omega) (by simp only [List.length_cons]; omega)

theorem UpdateEntitlements_error {env : gorm.Env} {db : gorm.Store}
    {response : EntitlementResponse} {err : Error} (hb : env.beginErr = none)
    (h : reconcileFrom env 0 db response.Entitlements = .error (.returned err)) :
    UpdateEntitlements env db response = (db, .returned (some err)) := by
  simp [UpdateEntitlements, Transaction, hb, h]

/-- An error returned by the iteration the loop has reached is the error of the call. -/
theorem UpdateEntitlements_abort_at {env : gorm.Env} {db tx : gorm.Store}
    {response : EntitlementResponse} {pre post : List Entitlement} {o : Entitlement}
    {err : Error} (hb : env.beginErr = none)
    (hsplit : response.Entitlements = pre ++ o :: post)
    (hpre : reconcileFrom env 0 db pre = .ok tx)
    (h : reconcileOne env pre.length tx o = .error (.returned err)) :
    UpdateEntitlements env db response = (db, .returned (some err)) := by
  apply UpdateEntitlements_error hb
  rw [hsplit, reconcileFrom_append, hpre]
  simp [reconcileFrom, h]

/-- C3 (as amended). Invalid value rejection: when the batch contains an observation whose
value has all four variants unset, every observation before it carries an expiration, and
no storage call fails before it, `UpdateEntitlements` returns `ErrInvalidValue` and the
store is exactly the store before the call, whatever writes the earlier observations had
decided. -/
theorem invalid_value_rejection (env : gorm.Env) (db : gorm.Store)
    (response : EntitlementResponse) (pre post : List Entitlement) (o : Entitlement)
    (hb : env.beginErr = none)
    (hsplit : response.Entitlements = pre ++ o :: post)
    (hunset : o.Value.allUnset = true)
    (hexp : ∀ q ∈ pre, q.ExpirationDate.isSome = true)
    (hfault : ∀ j, j < pre.length →
      env.lookupErr j = none ∧ env.valueErr j = none ∧ env.recordErr j = none) :
    UpdateEntitlements env db response = (db, .returned (some .ErrInvalidValue)) := by
  apply UpdateEntitlements_error hb
  rw [hsplit]
  exact reconcileFrom_invalid hunset pre 0 db hexp (fun j _ hj => hfault j (by omega))

/-- C3 (as amended), at a concrete input: the first observation decides a write, the second
has no value; the call returns `ErrInvalidValue` and the store stays empty. -/
theorem invalid_value_rejection_witness :
    UpdateEntitlements (gorm.Env.ideal 100) gorm.Store.empty
        ⟨[observe "seats" (integerOf 5) (some 1700000000),
          observe "tier" unsetValue (some 1700000000)], none⟩
      = (gorm.Store.empty, .returned (some .ErrInvalidValue)) :=
  invalid_value_rejection (gorm.Env.ideal 100) gorm.Store.empty _
    [observe "seats" (integerOf 5) (some 1700000000)] []
    (observe "tier" unsetValue (some 1700000000)) rfl rfl (by decide) (by decide)
    (fun _ _ => ⟨rfl, rfl, rfl⟩)

/-- C3 as stated fails: on an empty store with no storage failure, the batch whose first
observation (integer 5) has no expiration and whose second observation has no value
contains an all-unset value, yet the call does not return `ErrInvalidValue`: the create
path of the first observation dereferences the nil expiration and the call panics. -/
theorem invalid_value_rejection_counterexample :
    (observe "tier" unsetValue (some 1700000000)).Value.allUnset = true ∧
      UpdateEntitlements (gorm.Env.ideal 100) gorm.Store.empty
          ⟨[observe "seats" (integerOf 5) none,
            observe "tier" unsetValue (some 1700000000)], none⟩
        = (gorm.Store.empty, .panicked) ∧
      (UpdateEntitlements (gorm.Env.ideal 100) gorm.Store.empty
          ⟨[observe "seats" (integerOf 5) none,
            observe "tier" unsetValue (some 1700000000)], none⟩).2
        ≠ .returned (some .ErrInvalidValue) := by
  decide

end repo

/-! ## Storage failures -/

namespace repo

theorem reconcileOne_lookup_failed {env : gorm.Env} {i : Nat} {tx : gorm.Store}
    {ent : Entitlement} {msg : String} (hl : env.lookupErr i = some msg) :
    reconcileOne env i tx ent =
      .error (.returned (if ent.Value.allUnset then .ErrInvalidValue else .storage msg)) := by
  rw [reconcileOne_eq]
  rcases determineValueType_cases ent.Value with ⟨hu, he⟩ | ⟨hu, v, hv, _, _⟩
  · simp [he, hu]
  · simp [hv, hu, hl]

theorem reconcileOne_value_failed {env : gorm.Env} {i : Nat} {tx : gorm.Store}
    {ent : Entitlement} {v : models.EntitlementValue} {msg : String}
    (hl : env.lookupErr i = none) (hv : determineValueType ent.Value = .ok v)
    (hd : decidesWrite tx ent.triple v = true) (hve : env.valueErr i = some msg) :
    reconcileOne env i tx ent = .error (.returned (.storage msg)) := by
  rw [reconcileOne_eq]
  simp [hv, hl, hd, createVersion, gorm.CreateValue, hve]

theorem reconcileOne_record_failed {env : gorm.Env} {i : Nat} {tx : gorm.Store}
    {ent : Entitlement} {v : models.EntitlementValue} {sec : Int} {msg : String}
    (hl : env.lookupErr i = none) (hv : determineValueType ent.Value = .ok v)
    (hd : decidesWrite tx ent.triple v = true) (hve : env.valueErr i = none)
    (he : ent.ExpirationDate = some sec) (hre : env.recordErr i = some msg) :
    reconcileOne env i tx ent = .error (.returned (.storage msg)) := by
  rw [reconcileOne_eq]
  simp [hv, hl, hd, createVersion, gorm.CreateValue, gorm.CreateEntitlement, hve, he, hre]

theorem reconcileOne_completes {env : gorm.Env} {i : Nat} (tx : gorm.Store) {ent : Entitlement}
    (hl : env.lookupErr i = none) (hve : env.valueErr i = none) (hre : env.recordErr i = none)
    (hu : ent.Value.allUnset = false) (he : ent.ExpirationDate.isSome = true) :
    ∃ tx1, reconcileOne env i tx ent = .ok tx1 := by
  rcases determineValueType_cases ent.Value with ⟨hu1, _⟩ | ⟨_, v, hv, _, _⟩
  · rw [hu] at hu1; cases hu1
  · obtain ⟨sec, hsec⟩ := Option.isSome_iff_exists.mp he
    cases hd : decidesWrite tx ent.triple v with
    | false => exact ⟨tx, reconcileOne_skips hl hv hd⟩
    | true => exact ⟨_, reconcileOne_creates hl hve hre hv hd hsec⟩

theorem reconcileFrom_total {env : gorm.Env}
    (hf : ∀ i, env.lookupErr i = none ∧ env.valueErr i = none ∧ env.recordErr i = none) :
    ∀ (batch : List Entitlement) (i : Nat) (tx : gorm.Store),
      (∀ o ∈ batch, o.Value.allUnset = false ∧ o.ExpirationDate.isSome = true) →
      ∃ tx1, reconcileFrom env i tx batch = .ok tx1 := by
  intro batch
  induction batch with
  | nil => intro i tx _; exact ⟨tx, rfl⟩
  | cons e rest ih =>
    intro i tx hall
    obtain ⟨hu, he⟩ := hall e (List.mem_cons_self _ _)
    obtain ⟨tx1, hok⟩ := reconcileOne_completes tx (hf i).1 (hf i).2.1 (hf i).2.2 hu he
    obtain ⟨tx2, h2⟩ := ih (i + 1) tx1 (fun o ho => hall o (List.mem_cons_of_mem _ ho))
    exact ⟨tx2, by simp [reconcileFrom, hok, h2]⟩

end repo

namespace repo

/-- C9 (as amended). Atomicity on storage failure, for every environment, store and batch.
(1) Unless the call returns nil, the store after it is the store before it.
(2) When `Begin` fails, its error is returned.
(3) When the loop has reached an observation (the iterations before it completed) and a
storage call of that iteration fails, the call returns exactly that storage error: for
the insert of the Value row and for the insert of the record always, and for the lookup
when the observation's value resolves; when the lookup fails for an observation whose
value has all four variants unset, the call returns `ErrInvalidValue` instead.
(4) When the loop completes and the commit fails, the commit's error is returned.
(5) When the call returns nil, every write the loop decided is in the resulting store: the
Value row and the record of each observation that took a create path.
(6) When no storage call fails, every value resolves and every expiration is present, the
call returns nil. -/
theorem storage_failure_atomicity (env : gorm.Env) (db : gorm.Store)
    (response : EntitlementResponse) :
    ((UpdateEntitlements env db response).2 ≠ .returned none →
        (UpdateEntitlements env db response).1 = db) ∧
    (∀ msg, env.beginErr = some msg →
        UpdateEntitlements env db response = (db, .returned (some (.storage msg)))) ∧
    (∀ (pre post : List Entitlement) (o : Entitlement) (tx : gorm.Store),
        env.beginErr = none → response.Entitlements = pre ++ o :: post →
        reconcileFrom env 0 db pre = .ok tx →
        (∀ msg, env.lookupErr pre.length = some msg →
          UpdateEntitlements env db response =
            (db, .returned (some (if o.Value.allUnset then .ErrInvalidValue else .storage msg)))) ∧
        (∀ v msg, env.lookupErr pre.length = none → determineValueType o.Value = .ok v →
          decidesWrite tx o.triple v = true → env.valueErr pre.length = some msg →
          UpdateEntitlements env db response = (db, .returned (some (.storage msg)))) ∧
        (∀ v sec msg, env.lookupErr pre.length = none → determineValueType o.Value = .ok v →
          decidesWrite tx o.triple v = true → env.valueErr pre.length = none →
          o.ExpirationDate = some sec → env.recordErr pre.length = some msg →
          UpdateEntitlements env db response = (db, .returned (some (.storage msg))))) ∧
    (∀ tx msg, env.beginErr = none →
        reconcileFrom env 0 db response.Entitlements = .ok tx → env.commitErr = some msg →
        UpdateEntitlements env db response = (db, .returned (some (.storage msg)))) ∧
    (∀ db1, UpdateEntitlements env db response = (db1, .returned none) →
        ∀ (pre post : List Entitlement) (o : Entitlement) (tx : gorm.Store) v sec,
          response.Entitlements = pre ++ o :: post → reconcileFrom env 0 db pre = .ok tx →
          determineValueType o.Value = .ok v → decidesWrite tx o.triple v = true →
          o.ExpirationDate = some sec →
          gorm.storedValue tx v ∈ db1.entitlement_values ∧
            storedRecord env pre.length tx o sec ∈ db1.entitlements) ∧
    (env.Healthy →
        (∀ o ∈ response.Entitlements, o.Value.allUnset = false ∧ o.ExpirationDate.isSome = true) →
        (UpdateEntitlements env db response).2 = .returned none) := by
  refine ⟨?_, ?_, ?_, ?_, ?_, ?_⟩
  · intro h
    unfold UpdateEntitlements Transaction at h ⊢
    cases hb : env.beginErr <;> cases hc : env.commitErr <;>
      rcases hr : reconcileFrom env 0 db response.Entitlements with (_ | _) | tx <;>
      simp [hb, hc, hr] at h ⊢
  · intro msg hb
    simp [UpdateEntitlements, Transaction, hb]
  · intro pre post o tx hb hsplit hpre
    refine ⟨?_, ?_, ?_⟩
    · intro msg hl
      exact UpdateEntitlements_abort_at hb hsplit hpre (reconcileOne_lookup_failed hl)
    · intro v msg hl hv hd hve
      exact UpdateEntitlements_abort_at hb hsplit hpre (reconcileOne_value_failed hl hv hd hve)
    · intro v sec msg hl hv hd hve he hre
      exact UpdateEntitlements_abort_at hb hsplit hpre
        (reconcileOne_record_failed hl hv hd hve he hre)
  · intro tx msg hb hr hc
    simp [UpdateEntitlements, Transaction, hb, hr, hc]
  · intro db1 hok pre post o tx v sec hsplit hpre hv hd he
    obtain ⟨_, _, hloop⟩ := UpdateEntitlements_ok_iff.mp hok
    rw [hsplit, reconcileFrom_append, hpre] at hloop
    simp only [reconcileFrom, Nat.zero_add] at hloop
    cases hs : reconcileOne env pre.length tx o with
    | error a => simp [hs] at hloop
    | ok tx2 =>
      simp only [hs] at hloop
      obtain ⟨v1, hv1, _, hcase⟩ := reconcileOne_ok hs
      have hvv : v1 = v := by rw [hv] at hv1; cases hv1; rfl
      subst hvv
      rcases hcase with ⟨hd0, _⟩ | ⟨_, _, _, sec1, he1, htx2⟩
      · rw [hd] at hd0; cases hd0
      · have hsec : sec1 = sec := by rw [he] at he1; cases he1; rfl
        subst hsec
        obtain ⟨p1, p2⟩ := reconcileFrom_extends post _ tx2 db1 hloop
        subst htx2
        exact ⟨p1.subset (by simp [appended]), p2.subset (by simp [appended])⟩
  · intro henv hall
    obtain ⟨hb, hc, hf⟩ := henv
    obtain ⟨tx1, h1⟩ := reconcileFrom_total hf response.Entitlements 0 db hall
    simp [UpdateEntitlements, Transaction, hb, hc, h1]

/-- C9 (as amended), at a concrete input: the insert of the Value row fails for the only
observation; the call returns that error and the store stays empty. -/
theorem storage_failure_atomicity_witness :
    UpdateEntitlements (gorm.Env.valueInsertFails 100 "disk full") gorm.Store.empty
        ⟨[observe "seats" (integerOf 5) (some 1700000000)], none⟩
      = (gorm.Store.empty, .returned (some (.storage "disk full"))) :=
  ((storage_failure_atomicity (gorm.Env.valueInsertFails 100 "disk full") gorm.Store.empty
    ⟨[observe "seats" (integerOf 5) (some 1700000000)], none⟩).2.2.1 [] []
    (observe "seats" (integerOf 5) (some 1700000000)) gorm.Store.empty rfl rfl rfl).2.1
    (gorm.integerRow 0 5) "disk full" rfl rfl (by decide) rfl

/-- C9 as stated fails: the lookup of the only observation fails with a storage error, the
observation's value has all four variants unset, and the call returns `ErrInvalidValue`,
not the storage error, because the loop resolves the value before it inspects the
lookup's error. -/
theorem storage_failure_atomicity_counterexample :
    (gorm.Env.lookupFails 100 "connection refused").lookupErr 0 = some "connection refused" ∧
      UpdateEntitlements (gorm.Env.lookupFails 100 "connection refused") gorm.Store.empty
          ⟨[observe "seats" unsetValue (some 1700000000)], none⟩
        = (gorm.Store.empty, .returned (some .ErrInvalidValue)) ∧
      (UpdateEntitlements (gorm.Env.lookupFails 100 "connection refused") gorm.Store.empty
          ⟨[observe "seats" unsetValue (some 1700000000)], none⟩).2
        ≠ .returned (some (.storage "connection refused")) := by
  decide

end repo

/-! ## The latest value after a run, and a second run -/

namespace repo

/-- A second run of a batch with pairwise distinct triples changes nothing. -/
theorem second_run_unchanged {env env2 : gorm.Env} {db db1 : gorm.Store}
    {response : EntitlementResponse}
    (hstep : db.InStep)
    (hfresh : ∀ k o, response.Entitlements[k]? = some o →
      ∀ r ∈ db.recordsOf o.triple, r.CreatedAt < env.now k)
    (hdistinct : (response.Entitlements.map Entitlement.triple).Nodup)
    (hnan : ∀ o ∈ response.Entitlements, ∀ v, determineValueType o.Value = .ok v → NoNaN v)
    (henv2 : env2.Healthy)
    (hfirst : UpdateEntitlements env db response = (db1, .returned none)) :
    UpdateEntitlements env2 db1 response = (db1, .returned none) := by
  obtain ⟨hb, hc, hf⟩ := henv2
  rw [UpdateEntitlements_ok_iff]
  refine ⟨hb, hc, reconcileFrom_quiet _ 0 (fun j => (hf j).1) ?_⟩
  have hfresh0 : ClockFresh env 0 db response.Entitlements := by
    intro k o hk r hr
    simpa using hfresh k o hk r hr
  exact reconcileFrom_quiet_nodup response.Entitlements 0 db db1 hstep hfresh0 hdistinct
    (UpdateEntitlements_ok_iff.mp hfirst).2.2 hnan

/-- The clock of `Env.ideal` is fresh for every batch when it starts past the creation
timestamps of the store. -/
theorem fresh_ideal (t0 : Int) (db : gorm.Store) (batch : List Entitlement)
    (h : ∀ r ∈ db.entitlements, r.CreatedAt < t0) :
    ∀ k o, batch[k]? = some o →
      ∀ r ∈ db.recordsOf o.triple, r.CreatedAt < (gorm.Env.ideal t0).now k := by
  intro k o _ r hr
  have := h r (List.mem_filter.mp hr).1
  simp only [gorm.Env.ideal]
  omega

theorem noNaN_of_no_double {value : EntitlementValue} (h : value.DoubleValue = none) :
    ∀ v, determineValueType value = .ok v → NoNaN v := by
  intro v hv x hx
  rcases value with ⟨b, d, n, s⟩
  simp only at h
  subst h
  cases b <;> cases n <;> cases s <;>
    simp [determineValueType, zeroValue] at hv <;> subst hv <;> simp at hx

end repo

/-! ## A batch of distinct values for one triple -/

namespace repo

/-- When the tables are in step, a run of the loop does not change what the lookup
attaches to a record that was there before. -/
theorem reconcileFrom_preload {env : gorm.Env} {r : models.Entitlement} :
    ∀ (batch : List Entitlement) (i : Nat) (tx tx1 : gorm.Store), tx.InStep →
      reconcileFrom env i tx batch = .ok tx1 → r ∈ tx.entitlements →
      gorm.preloadValue tx1 r = gorm.preloadValue tx r := by
  intro batch
  induction batch with
  | nil =>
    intro i tx tx1 _ h _
    simp only [reconcileFrom, Except.ok.injEq] at h
    rw [h]
  | cons e rest ih =>
    intro i tx tx1 hs h hr
    simp only [reconcileFrom] at h
    cases hstep : reconcileOne env i tx e with
    | error a => simp [hstep] at h
    | ok tx2 =>
      simp only [hstep] at h
      obtain ⟨v, _, _, hcase⟩ := reconcileOne_ok hstep
      have h2 : gorm.preloadValue tx2 r = gorm.preloadValue tx r ∧ r ∈ tx2.entitlements := by
        rcases hcase with ⟨_, rfl⟩ | ⟨_, _, _, sec, _, rfl⟩
        · exact ⟨rfl, hr⟩
        · exact ⟨preload_appended_old hs hr, by simp [appended, hr]⟩
      rw [ih (i + 1) tx2 tx1 (inStep_step hs hstep) h h2.2, h2.1]

/-- The loop on observations of one triple `t` whose resolved values are pairwise
different, started with the tables in step and in a state where the lookup attaches to
every record of `t` a value different from all values still to come: every observation
appends a record, in order. -/
theorem reconcileFrom_append_only {env : gorm.Env} {t : String × String × String}
    (hf : ∀ i, env.lookupErr i = none ∧ env.valueErr i = none ∧ env.recordErr i = none) :
    ∀ (batch : List Entitlement) (i : Nat) (tx : gorm.Store), tx.InStep →
      (∀ o ∈ batch, o.triple = t ∧ o.Value.allUnset = false ∧ o.ExpirationDate.isSome = true) →
      batch.Pairwise (fun a b => ∀ va vb, determineValueType a.Value = .ok va →
        determineValueType b.Value = .ok vb → compareEntitlementValues va vb = false) →
      (∀ r ∈ tx.recordsOf t, ∃ w, gorm.preloadValue tx r = some w ∧
        ∀ o ∈ batch, ∀ v, determineValueType o.Value = .ok v →
          compareEntitlementValues w v = false) →
      ∃ tx1 news, reconcileFrom env i tx batch = .ok tx1 ∧
        tx1.recordsOf t = tx.recordsOf t ++ news ∧
        List.Forall₂ (fun r o => ∃ v, determineValueType o.Value = .ok v ∧
          gorm.preloadValue tx1 r = some { v with ValueID := r.ValueID } ∧
          r.ValueID = r.EntitlementID) news batch := by
  intro batch
  induction batch with
  | nil =>
    intro i tx _ _ _ _
    exact ⟨tx, [], rfl, by simp, List.Forall₂.nil⟩
  | cons o rest ih =>
    intro i tx hs hall hpair hinv
    obtain ⟨ht, hu, he⟩ := hall o (List.mem_cons_self _ _)
    obtain ⟨sec, hsec⟩ := Option.isSome_iff_exists.mp he
    rcases determineValueType_cases o.Value with ⟨hu1, _⟩ | ⟨_, v, hv, _, _⟩
    · rw [hu] at hu1; cases hu1
    have hd : decidesWrite tx o.triple v = true := by
      unfold decidesWrite
      cases hl : gorm.latest tx o.triple.1 o.triple.2.1 o.triple.2.2 with
      | none => rfl
      | some ex =>
        have hex : ex ∈ tx.recordsOf t := by
          rw [← ht]
          exact List.mem_filter.mpr (gorm.latest_mem hl)
        obtain ⟨w, hw, hdiff⟩ := hinv ex hex
        simp [hw, hdiff o (List.mem_cons_self _ _) v hv]
    have hstep := reconcileOne_creates (hf i).1 (hf i).2.1 (hf i).2.2 hv hd hsec
    have hrec : (appended env i tx o v sec).recordsOf t =
        tx.recordsOf t ++ [storedRecord env i tx o sec] := by
      rw [← ht]; exact recordsOf_appended_same env i tx o v sec
    have hnew : gorm.preloadValue (appended env i tx o v sec) (storedRecord env i tx o sec) =
        some (gorm.storedValue tx v) := preload_appended_new hs
    have hinv2 : ∀ r ∈ (appended env i tx o v sec).recordsOf t, ∃ w,
        gorm.preloadValue (appended env i tx o v sec) r = some w ∧
        ∀ q ∈ rest, ∀ vq, determineValueType q.Value = .ok vq →
          compareEntitlementValues w vq = false := by
      intro r hr
      rw [hrec, List.mem_append, List.mem_singleton] at hr
      rcases hr with hr | rfl
      · obtain ⟨w, hw, hdiff⟩ := hinv r hr
        refine ⟨w, ?_, fun q hq vq hvq => hdiff q (List.mem_cons_of_mem _ hq) vq hvq⟩
        rw [preload_appended_old hs (List.mem_filter.mp hr).1, hw]
      · refine ⟨gorm.storedValue tx v, hnew, ?_⟩
        intro q hq vq hvq
        rw [compare_storedValue]
        exact (List.pairwise_cons.mp hpair).1 q hq v vq hv hvq
    obtain ⟨tx1, news, hloop, hrecs, hforall⟩ :=
      ih (i + 1) (appended env i tx o v sec) (inStep_appended hs)
        (fun q hq => hall q (List.mem_cons_of_mem _ hq)) (List.pairwise_cons.mp hpair).2 hinv2
    refine ⟨tx1, storedRecord env i tx o sec :: news, ?_, ?_, ?_⟩
    · simp [reconcileFrom, hstep, hloop]
    · rw [hrecs, hrec]; simp
    · refine List.Forall₂.cons ⟨v, hv, ?_, (holds_appended_new (v := v) hs).1⟩ hforall
      rw [reconcileFrom_preload rest (i + 1) _ tx1 (inStep_appended hs) hloop
        (by simp [appended]), hnew]
      rfl

end repo

/-! ## Value resolution -/

namespace repo

/-- C11. `determineValueType` returns `ErrInvalidValue` if and only if none of the four
fields `BooleanValue`, `DoubleValue`, `IntegerValue`, `StringValue` of its input is set;
for every other input it returns a value and no error; and `ErrInvalidValue` is the only
error it returns. -/
theorem determineValueType_invalid_iff (value : EntitlementValue) :
    (determineValueType value = .error .ErrInvalidValue ↔
        value.BooleanValue = none ∧ value.DoubleValue = none ∧ value.IntegerValue = none ∧
          value.StringValue = none) ∧
      (¬(value.BooleanValue = none ∧ value.DoubleValue = none ∧ value.IntegerValue = none ∧
          value.StringValue = none) → ∃ v, determineValueType value = .ok v) ∧
      (∀ e, determineValueType value = .error e → e = .ErrInvalidValue) := by
  rcases value with ⟨b, x, n, s⟩
  cases b <;> cases x <;> cases n <;> cases s <;> simp [determineValueType]

/-- C12. Exactly one variant populated: when `determineValueType` succeeds on an input,
the value it returns has exactly one of its four payload fields set, its `ValueType` is
the tag naming that field, and the payload is the input's payload for that field. -/
theorem determineValueType_exactly_one (value : EntitlementValue)
    (v : models.EntitlementValue) (h : determineValueType value = .ok v) :
    (v.ValueType = models.ValueTypeBoolean ∧
        (∃ b, value.BooleanValue = some b ∧ v.BooleanValue = some b) ∧
        v.DoubleValue = none ∧ v.IntegerValue = none ∧ v.StringValue = none) ∨
    (v.ValueType = models.ValueTypeDouble ∧ v.BooleanValue = none ∧
        (∃ x, value.DoubleValue = some x ∧ v.DoubleValue = some x) ∧
        v.IntegerValue = none ∧ v.StringValue = none) ∨
    (v.ValueType = models.ValueTypeInteger ∧ v.BooleanValue = none ∧ v.DoubleValue = none ∧
        (∃ n, value.IntegerValue = some n ∧ v.IntegerValue = some n) ∧
        v.StringValue = none) ∨
    (v.ValueType = models.ValueTypeString ∧ v.BooleanValue = none ∧ v.DoubleValue = none ∧
        v.IntegerValue = none ∧
        (∃ s, value.StringValue = some s ∧ v.StringValue = some s)) := by
  rcases value with ⟨b, x, n, s⟩
  cases b <;> cases x <;> cases n <;> cases s <;>
    simp [determineValueType, zeroValue] at h <;> subst h <;> simp

/-- C12, at a concrete input: the integer 5 resolves to a value tagged `integer` whose only
payload is the integer 5. -/
theorem determineValueType_exactly_one_witness :
    (gorm.integerRow 0 5).ValueType = models.ValueTypeInteger ∧
      (gorm.integerRow 0 5).BooleanValue = none ∧ (gorm.integerRow 0 5).DoubleValue = none ∧
      (∃ n, (integerOf 5).IntegerValue = some n ∧ (gorm.integerRow 0 5).IntegerValue = some n) ∧
      (gorm.integerRow 0 5).StringValue = none :=
  (determineValueType_exactly_one (integerOf 5) (gorm.integerRow 0 5) rfl).resolve_left
    (fun h => absurd h.1 (by decide)) |>.resolve_left (fun h => absurd h.1 (by decide))
    |>.resolve_right (fun h => absurd h.1 (by decide))

/-- C19. Variant priority in `determineValueType`: for every input, the result is tagged
with the first set field in the order boolean, double, integer, string and carries only
that field's payload; the fields after it, set or not, are dropped, and no error is
returned. -/
theorem determineValueType_priority (value : EntitlementValue) :
    (∀ b, value.BooleanValue = some b →
      determineValueType value = .ok
        { ValueID := 0, BooleanValue := some b, DoubleValue := none, IntegerValue := none,
          StringValue := none, ValueType := models.ValueTypeBoolean }) ∧
    (∀ x, value.BooleanValue = none → value.DoubleValue = some x →
      determineValueType value = .ok
        { ValueID := 0, BooleanValue := none, DoubleValue := some x, IntegerValue := none,
          StringValue := none, ValueType := models.ValueTypeDouble }) ∧
    (∀ n, value.BooleanValue = none → value.DoubleValue = none → value.IntegerValue = some n →
      determineValueType value = .ok
        { ValueID := 0, BooleanValue := none, DoubleValue := none, IntegerValue := some n,
          StringValue := none, ValueType := models.ValueTypeInteger }) ∧
    (∀ s, value.BooleanValue = none → value.DoubleValue = none → value.IntegerValue = none →
      value.StringValue = some s →
      determineValueType value = .ok
        { ValueID := 0, BooleanValue := none, DoubleValue := none, IntegerValue := none,
          StringValue := some s, ValueType := models.ValueTypeString }) := by
  rcases value with ⟨b, x, n, s⟩
  refine ⟨?_, ?_, ?_, ?_⟩
  · intro b' hb
    simp only at hb
    subst hb
    simp [determineValueType, zeroValue]
  · intro x' hb hx
    simp only at hb hx
    subst hb hx
    simp [determineValueType, zeroValue]
  · intro n' hb hx hn
    simp only at hb hx hn
    subst hb hx hn
    simp [determineValueType, zeroValue]
  · intro s' hb hx hn hs
    simp only at hb hx hn hs
    subst hb hx hn hs
    simp [determineValueType, zeroValue]

/-- C19, at concrete inputs: with all four fields set the result is the boolean alone; with
the double, the integer and the string set it is the double alone. -/
theorem determineValueType_priority_witness :
    determineValueType
        { BooleanValue := some true, DoubleValue := some ⟨0⟩, IntegerValue := some 1,
          StringValue := some "gold" } = .ok (gorm.booleanRow 0 true) ∧
      determineValueType
        { BooleanValue := none, DoubleValue := some ⟨0⟩, IntegerValue := some 1,
          StringValue := some "gold" } = .ok (gorm.doubleRow 0 0) :=
  ⟨(determineValueType_priority _).1 true rfl, (determineValueType_priority _).2.1 ⟨0⟩ rfl rfl⟩

theorem compare_ignores_id (a b : models.EntitlementValue) (i j : Int) :
    compareEntitlementValues { a with ValueID := i } { b with ValueID := j } =
      compareEntitlementValues a b := rfl

/-- C20. A persisted value compares equal to its re-resolved observation: when
`determineValueType` succeeds on an observation value and the result `v` does not carry a
NaN double, then for every `ValueID` the stored copy may be given, in particular the one
`CreateValue` assigns, `compareEntitlementValues` of the stored copy and `v` is true; and
on all values the comparison does not depend on the `ValueID` of either side. -/
theorem persisted_value_compares_equal (value : EntitlementValue)
    (v : models.EntitlementValue) (h : determineValueType value = .ok v) (hn : NoNaN v) :
    (∀ k : Int, compareEntitlementValues { v with ValueID := k } v = true) ∧
      (∀ tx : gorm.Store, compareEntitlementValues (gorm.storedValue tx v) v = true) ∧
      (∀ (a b : models.EntitlementValue) (i j : Int),
        compareEntitlementValues { a with ValueID := i } { b with ValueID := j } =
          compareEntitlementValues a b) := by
  obtain ⟨p, hp⟩ := determineValueType_ok_tagged h
  exact ⟨fun k => compare_copy_self k hp hn, fun tx => compare_copy_self _ hp hn,
    compare_ignores_id⟩

/-- C20, at a concrete input: the double 1.0, stored under `ValueID` 42, compares equal to
the value the same observation resolves to. -/
theorem persisted_value_compares_equal_witness :
    compareEntitlementValues (gorm.doubleRow 42 0x3FF0000000000000)
      (gorm.doubleRow 0 0x3FF0000000000000) = true :=
  (persisted_value_compares_equal (doubleOf 0x3FF0000000000000)
    (gorm.doubleRow 0 0x3FF0000000000000) rfl
    (fun x hx => by cases hx; decide)).1 42

end repo

/-! ## The latest-record lookup -/

namespace gorm

theorem precedes_iff (a b : models.Entitlement) :
    precedes a b = true ↔
      b.CreatedAt < a.CreatedAt ∨ (a.CreatedAt = b.CreatedAt ∧ a.EntitlementID < b.EntitlementID) := by
  simp [precedes]

theorem precedes_false_iff (a b : models.Entitlement) :
    precedes a b = false ↔
      a.CreatedAt ≤ b.CreatedAt ∧ (a.CreatedAt = b.CreatedAt → b.EntitlementID ≤ a.EntitlementID) := by
  rw [← Bool.not_eq_true, precedes_iff]
  constructor
  · intro h
    refine ⟨?_, fun he => ?_⟩
    · by_contra hlt
      exact h (Or.inl (by omega))
    · by_contra hlt
      exact h (Or.inr ⟨he, by omega⟩)
  · rintro ⟨h1, h2⟩ (h | ⟨he, hlt⟩)
    · omega
    · have := h2 he
      omega

/-- No row of the result set comes strictly before the one `firstOrdered` returns. -/
theorem firstOrdered_best {rows : List models.Entitlement} {b : models.Entitlement}
    (h : firstOrdered rows = some b) : ∀ r ∈ rows, precedes r b = false := by
  induction rows using List.reverseRecOn generalizing b with
  | nil => simp [firstOrdered] at h
  | append_singleton rest x ih =>
    rw [firstOrdered_append_single] at h
    intro r hr
    cases hf : firstOrdered rest with
    | none =>
      have hnil := firstOrdered_eq_none hf
      subst hnil
      simp only [hf, Option.some.injEq] at h
      subst h
      simp only [List.nil_append, List.mem_singleton] at hr
      subst hr
      rw [precedes_false_iff]
      exact ⟨le_refl _, fun _ => le_refl _⟩
    | some c =>
      simp only [hf] at h
      by_cases hxc : precedes x c = true
      · simp only [hxc, if_true, Option.some.injEq] at h
        subst h
        rcases List.mem_append.mp hr with hr | hr
        · have h1 := (precedes_false_iff r c).mp (ih hf r hr)
          have h2 := (precedes_iff x c).mp hxc
          rw [precedes_false_iff]
          refine ⟨by omega, fun he => ?_⟩
          have := h1.2
          omega
        · simp only [List.mem_singleton] at hr
          subst hr
          rw [precedes_false_iff]
          exact ⟨le_refl _, fun _ => le_refl _⟩
      · simp only [hxc, Bool.false_eq_true, if_false, Option.some.injEq] at h
        subst h
        rcases List.mem_append.mp hr with hr | hr
        · exact ih hf r hr
        · simp only [List.mem_singleton] at hr
          subst hr
          simpa using hxc

end gorm

namespace gorm

theorem matchesTriple_eq_decide (c p d : String) (r : models.Entitlement) :
    matchesTriple c p d r =
      decide (r.CustomerIdentifier = c ∧ r.ProductCode = p ∧ r.Dimension = d) := by
  rw [Bool.eq_iff_iff]
  simp [matchesTriple, and_assoc]

theorem matchesTriple_iff (c p d : String) (r : models.Entitlement) :
    matchesTriple c p d r = true ↔
      r.CustomerIdentifier = c ∧ r.ProductCode = p ∧ r.Dimension = d := by
  simp [matchesTriple_eq_decide]

/-- C13. Latest-wins on read, when the storage layer does not fail the query.
(1) When no record has the customer identifier, product code and dimension asked for,
the lookup used by `UpdateEntitlements` returns record-not-found.
(2) Otherwise it returns a record of the table with these three columns, whose creation
timestamp is the highest among such records and whose primary key is the lowest among
those of them that tie on that timestamp; the Value it attaches is the row of
`entitlement_values` whose `value_id` is the primary key of that record.
(3) When the records of the triple are three records created at t1 < t2 < t3, in whatever
order they sit in the table, it returns the third; and when that record's `value_id` is
its own key, the Value attached is the row the record refers to, its value C. -/
theorem latest_wins_on_read (env : Env) (i : Nat) (tx : Store) (c p d : String)
    (hl : env.lookupErr i = none) :
    ((∀ r ∈ tx.entitlements,
          ¬(r.CustomerIdentifier = c ∧ r.ProductCode = p ∧ r.Dimension = d)) →
        First env i tx c p d = .ErrRecordNotFound) ∧
    ((∃ r ∈ tx.entitlements, r.CustomerIdentifier = c ∧ r.ProductCode = p ∧ r.Dimension = d) →
        ∃ existing,
          First env i tx c p d = .found existing
            (if existing.EntitlementID = 0 then none
              else tx.entitlement_values.find? (fun v => v.ValueID == existing.EntitlementID)) ∧
          existing ∈ tx.entitlements ∧
          existing.CustomerIdentifier = c ∧ existing.ProductCode = p ∧ existing.Dimension = d ∧
          ∀ r ∈ tx.entitlements,
            r.CustomerIdentifier = c → r.ProductCode = p → r.Dimension = d →
            r.CreatedAt ≤ existing.CreatedAt ∧
              (r.CreatedAt = existing.CreatedAt → existing.EntitlementID ≤ r.EntitlementID)) ∧
    (∀ r1 r2 r3 : models.Entitlement,
        (tx.entitlements.filter (fun r =>
            decide (r.CustomerIdentifier = c ∧ r.ProductCode = p ∧ r.Dimension = d))).Perm
          [r1, r2, r3] →
        r1.CreatedAt < r2.CreatedAt → r2.CreatedAt < r3.CreatedAt →
        ∃ value, First env i tx c p d = .found r3 value ∧
          (r3.EntitlementID ≠ 0 → r3.ValueID = r3.EntitlementID →
            value = tx.entitlement_values.find? (fun v => v.ValueID == r3.ValueID))) := by
  have hfound : ∀ ex, latest tx c p d = some ex →
      First env i tx c p d = .found ex (preloadValue tx ex) := by
    intro ex hex
    simp [First, hl, hex]
  have hfilter : (fun r : models.Entitlement =>
      decide (r.CustomerIdentifier = c ∧ r.ProductCode = p ∧ r.Dimension = d))
        = matchesTriple c p d := by
    funext r
    exact (matchesTriple_eq_decide c p d r).symm
  refine ⟨?_, ?_, ?_⟩
  · intro hnone
    have : tx.entitlements.filter (matchesTriple c p d) = [] := by
      rw [List.filter_eq_nil_iff]
      intro r hr hm
      exact hnone r hr ((matchesTriple_iff c p d r).mp hm)
    simp [First, hl, latest, this, firstOrdered]
  · rintro ⟨r0, hr0, hm0⟩
    cases hlat : latest tx c p d with
    | none =>
      have hnil := firstOrdered_eq_none hlat
      have : r0 ∈ tx.entitlements.filter (matchesTriple c p d) :=
        List.mem_filter.mpr ⟨hr0, (matchesTriple_iff c p d r0).mpr hm0⟩
      rw [hnil] at this
      cases this
    | some ex =>
      obtain ⟨h1, h2, h3⟩ := (matchesTriple_iff c p d ex).mp (latest_mem hlat).2
      refine ⟨ex, hfound ex hlat, (latest_mem hlat).1, h1, h2, h3, ?_⟩
      intro r hr hc hp hd
      exact (precedes_false_iff r ex).mp
        (firstOrdered_best hlat r
          (List.mem_filter.mpr ⟨hr, (matchesTriple_iff c p d r).mpr ⟨hc, hp, hd⟩⟩))
  · intro r1 r2 r3 hperm h12 h23
    rw [hfilter] at hperm
    have hmem3 : r3 ∈ tx.entitlements.filter (matchesTriple c p d) := hperm.mem_iff.mpr (by simp)
    cases hlat : latest tx c p d with
    | none =>
      rw [firstOrdered_eq_none hlat] at hmem3
      cases hmem3
    | some ex =>
      have hex : ex ∈ [r1, r2, r3] := hperm.mem_iff.mp (firstOrdered_mem hlat)
      have hbest := (precedes_false_iff r3 ex).mp (firstOrdered_best hlat r3 hmem3)
      simp only [List.mem_cons, List.mem_singleton, List.not_mem_nil, or_false] at hex
      rcases hex with rfl | rfl | rfl
      · omega
      · omega
      · refine ⟨preloadValue tx ex, hfound _ hlat, ?_⟩
        intro hz hown
        simp [preloadValue, hz, hown]

/-- C13, at a concrete store: three records of (c1, p1, seats) created at 100, 200 and 300
hold the integers 1, 2 and 3 and sit in the table with the latest one first; the lookup
returns the record created at 300 with the value 3. -/
theorem latest_wins_on_read_witness :
    First (Env.ideal 400) 0
        ⟨[integerRow 1 1, integerRow 2 2, integerRow 3 3],
          [recordOf 3 "seats" 3 300, recordOf 1 "seats" 1 100, recordOf 2 "seats" 2 200]⟩
        "c1" "p1" "seats"
      = .found (recordOf 3 "seats" 3 300) (some (integerRow 3 3)) :=
  match (latest_wins_on_read (Env.ideal 400) 0
      ⟨[integerRow 1 1, integerRow 2 2, integerRow 3 3],
        [recordOf 3 "seats" 3 300, recordOf 1 "seats" 1 100, recordOf 2 "seats" 2 200]⟩
      "c1" "p1" "seats" rfl).2.2
      (recordOf 1 "seats" 1 100) (recordOf 2 "seats" 2 200) (recordOf 3 "seats" 3 300)
      (by decide) (by decide) (by decide) with
  | ⟨_, hfirst, hvalue⟩ => hfirst.trans (by rw [hvalue (by decide) rfl]; decide)

end gorm

/-! ## The skip path and the missing expiration -/

namespace repo

theorem decidesWrite_iff (tx : gorm.Store) (t : String × String × String)
    (v : models.EntitlementValue) :
    decidesWrite tx t v = true ↔
      gorm.latest tx t.1 t.2.1 t.2.2 = none ∨
        ∃ existing w, gorm.latest tx t.1 t.2.1 t.2.2 = some existing ∧
          gorm.preloadValue tx existing = some w ∧ compareEntitlementValues w v = false := by
  unfold decidesWrite
  cases hl : gorm.latest tx t.1 t.2.1 t.2.2 with
  | none => simp
  | some ex =>
    rcases Option.eq_none_or_eq_some (gorm.preloadValue tx ex) with hp | ⟨w, hp⟩
    · simp [hp]
    · simp [hp]

theorem createVersion_panics_iff (env : gorm.Env) (i : Nat) (tx : gorm.Store) (ent : Entitlement)
    (v : models.EntitlementValue) :
    createVersion env i tx ent v = .error .nilDereference ↔
      env.valueErr i = none ∧ ent.ExpirationDate = none := by
  unfold createVersion gorm.CreateValue gorm.CreateEntitlement
  cases hv : env.valueErr i <;> cases he : ent.ExpirationDate <;> cases hr : env.recordErr i <;>
    simp

theorem reconcileOne_panics_iff (env : gorm.Env) (i : Nat) (tx : gorm.Store) (ent : Entitlement) :
    reconcileOne env i tx ent = .error .nilDereference ↔
      ent.ExpirationDate = none ∧ env.lookupErr i = none ∧ env.valueErr i = none ∧
        ∃ v, determineValueType ent.Value = .ok v ∧ decidesWrite tx ent.triple v = true := by
  rw [reconcileOne_eq]
  cases hd : determineValueType ent.Value with
  | error e => simp
  | ok v =>
    cases hl : env.lookupErr i with
    | some msg => simp
    | none =>
      cases hw : decidesWrite tx ent.triple v with
      | false => simp [hw]
      | true =>
        simp only [hw, if_true, createVersion_panics_iff, Except.ok.injEq, exists_eq_left',
          true_and, and_true]
        tauto

theorem reconcileFrom_panics {env : gorm.Env} :
    ∀ (batch : List Entitlement) (i : Nat) (tx : gorm.Store),
      reconcileFrom env i tx batch = .error .nilDereference →
      ∃ o ∈ batch, o.ExpirationDate = none := by
  intro batch
  induction batch with
  | nil => intro i tx h; simp [reconcileFrom] at h
  | cons e rest ih =>
    intro i tx h
    simp only [reconcileFrom] at h
    cases hs : reconcileOne env i tx e with
    | error a =>
      simp only [hs, Except.error.injEq] at h
      subst h
      exact ⟨e, List.mem_cons_self _ _, ((reconcileOne_panics_iff env i tx e).mp hs).1⟩
    | ok tx1 =>
      simp only [hs] at h
      obtain ⟨o, ho, hnone⟩ := ih (i + 1) tx1 h
      exact ⟨o, List.mem_cons_of_mem _ ho, hnone⟩

theorem UpdateEntitlements_panicked_iff (env : gorm.Env) (db : gorm.Store)
    (response : EntitlementResponse) :
    (UpdateEntitlements env db response).2 = .panicked ↔
      env.beginErr = none ∧
        reconcileFrom env 0 db response.Entitlements = .error .nilDereference := by
  unfold UpdateEntitlements Transaction
  cases hb : env.beginErr <;> cases hc : env.commitErr <;>
    rcases hr : reconcileFrom env 0 db response.Entitlements with (_ | _) | tx <;> simp [hr]

theorem UpdateEntitlements_panics_at {env : gorm.Env} {db tx : gorm.Store}
    {response : EntitlementResponse} {pre post : List Entitlement} {o : Entitlement}
    (hb : env.beginErr = none) (hsplit : response.Entitlements = pre ++ o :: post)
    (hpre : reconcileFrom env 0 db pre = .ok tx)
    (h : reconcileOne env pre.length tx o = .error .nilDereference) :
    UpdateEntitlements env db response = (db, .panicked) := by
  have hloop : reconcileFrom env 0 db response.Entitlements = .error .nilDereference := by
    rw [hsplit, reconcileFrom_append, hpre]
    simp [reconcileFrom, h]
  simp [UpdateEntitlements, Transaction, hb, hloop]

end repo

namespace repo

theorem UpdateEntitlements_fails_at {env : gorm.Env} {db tx : gorm.Store}
    {response : EntitlementResponse} {pre post : List Entitlement} {o : Entitlement}
    {a : Abort} (hb : env.beginErr = none) (hsplit : response.Entitlements = pre ++ o :: post)
    (hpre : reconcileFrom env 0 db pre = .ok tx)
    (h : reconcileOne env pre.length tx o = .error a) :
    (UpdateEntitlements env db response).1 = db ∧
      (UpdateEntitlements env db response).2 ≠ .returned none := by
  have hloop : reconcileFrom env 0 db response.Entitlements = .error a := by
    rw [hsplit, reconcileFrom_append, hpre]
    simp [reconcileFrom, h]
  cases a <;> simp [UpdateEntitlements, Transaction, hb, hloop]

theorem reconcileOne_without_expiration {env : gorm.Env} {i : Nat} (tx : gorm.Store)
    {o : Entitlement} {v : models.EntitlementValue}
    (he : o.ExpirationDate = none) (hl : env.lookupErr i = none)
    (hv : determineValueType o.Value = .ok v) :
    reconcileOne env i tx o =
      if decidesWrite tx o.triple v then
        match env.valueErr i with
        | some msg => .error (.returned (.storage msg))
        | none => .error .nilDereference
      else .ok tx := by
  rw [reconcileOne_eq]
  simp only [hv, hl]
  cases hd : decidesWrite tx o.triple v with
  | false => simp
  | true =>
    simp only [if_true, createVersion, gorm.CreateValue, he]
    cases env.valueErr i <;> rfl

/-- C18. A record without a loaded Value is silently skipped: when the observation's value
resolves and the lookup attaches no Value to the latest record of its triple
(`existing.Value` is nil, because no row of `entitlement_values` has the record's primary
key as its `value_id`), the iteration at any position writes nothing and returns no
error, whether or not the observation carries an expiration; a call with that one
observation returns nil and leaves the store as it was, so the lookup still attaches no
value to the latest record of the triple and the observed value is not in the log. The
lookup, `Begin` and `Commit` do not fail. -/
theorem unloaded_value_is_skipped (env : gorm.Env) (tx : gorm.Store) (o : Entitlement)
    (v : models.EntitlementValue) (existing : models.Entitlement)
    (hres : determineValueType o.Value = .ok v)
    (hlatest : gorm.latest tx o.CustomerIdentifier o.ProductCode o.Dimension = some existing)
    (hnil : gorm.preloadValue tx existing = none) :
    (∀ i, env.lookupErr i = none → reconcileOne env i tx o = .ok tx) ∧
      (∀ tok, env.beginErr = none → env.lookupErr 0 = none → env.commitErr = none →
        UpdateEntitlements env tx ⟨[o], tok⟩ = (tx, .returned none)) ∧
      tx.latestValue o.triple = none := by
  have hd : decidesWrite tx o.triple v = false := by
    simp [decidesWrite, Entitlement.triple, hlatest, hnil]
  refine ⟨fun i hl => reconcileOne_skips hl hres hd,
    fun tok hb hl hc => UpdateEntitlements_single hb hc (reconcileOne_skips hl hres hd), ?_⟩
  simp [gorm.Store.latestValue, Entitlement.triple, hlatest, hnil]

/-- C18, at a concrete input: the only record of (c1, p1, seats) has the primary key 2 and
refers to Value row 1, which holds the integer 5; no Value row has `value_id` 2, so the
lookup attaches nothing. Observing the integer 6 for the triple returns nil and changes
nothing. -/
theorem unloaded_value_is_skipped_witness :
    gorm.preloadValue ⟨[gorm.integerRow 1 5], [gorm.recordOf 2 "seats" 1 50]⟩
        (gorm.recordOf 2 "seats" 1 50) = none ∧
    UpdateEntitlements (gorm.Env.ideal 100)
        ⟨[gorm.integerRow 1 5], [gorm.recordOf 2 "seats" 1 50]⟩
        ⟨[observe "seats" (integerOf 6) (some 1700000000)], none⟩
      = (⟨[gorm.integerRow 1 5], [gorm.recordOf 2 "seats" 1 50]⟩, .returned none) :=
  ⟨by decide,
    (unloaded_value_is_skipped (gorm.Env.ideal 100)
      ⟨[gorm.integerRow 1 5], [gorm.recordOf 2 "seats" 1 50]⟩
      (observe "seats" (integerOf 6) (some 1700000000)) (gorm.integerRow 0 6)
      (gorm.recordOf 2 "seats" 1 50) rfl (by decide) (by decide)).2.1 none rfl rfl rfl⟩

end repo

/-! ## A second run on distinct triples -/

namespace repo

end repo

/-! ## Value ownership -/

namespace repo

/-- A record whose Value row exists refers to a `value_id` of the table. -/
theorem valueID_le_max_of_loaded {tx : gorm.Store} {r : models.Entitlement}
    (h : ∃ v ∈ tx.entitlement_values, v.ValueID = r.ValueID) :
    r.ValueID ≤ gorm.maxValueID tx.entitlement_values := by
  obtain ⟨w, hmem, hid⟩ := h
  rw [← hid]
  exact gorm.le_maxValueID hmem

/-- What a successful run of the loop inserts: Value rows and records in pairs, each
record referring to its row, under `value_id`s that are new and pairwise different. -/
theorem reconcileFrom_inserts {env : gorm.Env} :
    ∀ (batch : List Entitlement) (i : Nat) (tx tx1 : gorm.Store),
      reconcileFrom env i tx batch = .ok tx1 →
      ∃ (vs : List models.EntitlementValue) (es : List models.Entitlement),
        tx1.entitlement_values = tx.entitlement_values ++ vs ∧
        tx1.entitlements = tx.entitlements ++ es ∧
        es.map (fun r => r.ValueID) = vs.map (fun row => row.ValueID) ∧
        (∀ row ∈ vs, gorm.maxValueID tx.entitlement_values < row.ValueID) ∧
        (vs.map (fun row => row.ValueID)).Nodup := by
  intro batch
  induction batch with
  | nil =>
    intro i tx tx1 h
    simp only [reconcileFrom, Except.ok.injEq] at h
    subst h
    exact ⟨[], [], by simp, by simp, rfl, by simp, by simp⟩
  | cons e rest ih =>
    intro i tx tx1 h
    simp only [reconcileFrom] at h
    cases hs : reconcileOne env i tx e with
    | error a => simp [hs] at h
    | ok tx2 =>
      simp only [hs] at h
      obtain ⟨vs, es, hv, he, hmap, hnew, hnodup⟩ := ih (i + 1) tx2 tx1 h
      obtain ⟨v, _, _, hcase⟩ := reconcileOne_ok hs
      rcases hcase with ⟨_, rfl⟩ | ⟨_, _, _, sec, _, rfl⟩
      · exact ⟨vs, es, hv, he, hmap, hnew, hnodup⟩
      · have hrow : (gorm.storedValue tx v).ValueID ≤
            gorm.maxValueID (appended env i tx e v sec).entitlement_values :=
          gorm.le_maxValueID (by simp [appended])
        have hid : (gorm.storedValue tx v).ValueID = gorm.maxValueID tx.entitlement_values + 1 :=
          rfl
        refine ⟨gorm.storedValue tx v :: vs, storedRecord env i tx e sec :: es, ?_, ?_, ?_, ?_, ?_⟩
        · rw [hv]; simp [appended]
        · rw [he]; simp [appended]
        · simp only [List.map_cons, hmap]
          rfl
        · intro row hrow'
          rcases List.mem_cons.mp hrow' with rfl | hmem
          · rw [hid]; omega
          · have := hnew row hmem
            omega
        · simp only [List.map_cons, List.nodup_cons, List.mem_map, not_exists, not_and]
          refine ⟨fun row hmem heq => ?_, hnodup⟩
          have := hnew row hmem
          omega

/-- C14 (as amended). Exclusive value ownership is preserved: for every store in which no
two entitlement records share a `ValueID` and every record's Value row exists, and every
batch on which `UpdateEntitlements` succeeds, no two records of the resulting store share
a `ValueID`; the call appends Value rows `vs` and records `es` in equal number; and each
inserted Value row is referenced by exactly one inserted record. -/
theorem exclusive_value_ownership (env : gorm.Env) (db db1 : gorm.Store)
    (response : EntitlementResponse)
    (hown : (db.entitlements.map (fun r => r.ValueID)).Nodup)
    (hloaded : db.Loaded)
    (hok : UpdateEntitlements env db response = (db1, .returned none)) :
    (db1.entitlements.map (fun r => r.ValueID)).Nodup ∧
      ∃ (vs : List models.EntitlementValue) (es : List models.Entitlement),
        db1.entitlement_values = db.entitlement_values ++ vs ∧
        db1.entitlements = db.entitlements ++ es ∧
        vs.length = es.length ∧
        ∀ row ∈ vs, (es.map (fun r => r.ValueID)).count row.ValueID = 1 := by
  obtain ⟨vs, es, hv, he, hmap, hnew, hnodup⟩ :=
    reconcileFrom_inserts response.Entitlements 0 db db1 (UpdateEntitlements_ok_iff.mp hok).2.2
  refine ⟨?_, vs, es, hv, he, ?_, ?_⟩
  · rw [he, List.map_append, List.nodup_append]
    refine ⟨hown, by rw [hmap]; exact hnodup, ?_⟩
    intro x hx1 hx2
    obtain ⟨r, hr, rfl⟩ := List.mem_map.mp hx1
    rw [hmap] at hx2
    obtain ⟨row, hrow, heq⟩ := List.mem_map.mp hx2
    have h1 := valueID_le_max_of_loaded (hloaded r hr)
    have h2 := hnew row hrow
    omega
  · have := congrArg List.length hmap
    simpa using this.symm
  · intro row hrow
    rw [hmap]
    exact List.count_eq_one_of_mem hnodup (List.mem_map_of_mem _ hrow)

/-- C14 (as amended), at a concrete input: the store holds the integer 5 for seats; the
batch observes 6 for seats and true for tier. The three records of the resulting store
refer to three different Value rows. -/
theorem exclusive_value_ownership_witness :
    ((UpdateEntitlements (gorm.Env.ideal 100)
        ⟨[gorm.integerRow 1 5], [gorm.recordOf 1 "seats" 1 50]⟩
        ⟨[observe "seats" (integerOf 6) (some 1700000000),
          observe "tier" (booleanOf true) (some 1700000000)], none⟩).1.entitlements.map
      (fun r => r.ValueID)).Nodup :=
  (exclusive_value_ownership (gorm.Env.ideal 100)
    ⟨[gorm.integerRow 1 5], [gorm.recordOf 1 "seats" 1 50]⟩ _
    ⟨[observe "seats" (integerOf 6) (some 1700000000),
      observe "tier" (booleanOf true) (some 1700000000)], none⟩
    (by decide) (by decide) (by decide)).1

/-- C14 as stated fails: the store holds one record, of (c1, p1, seats), that refers to
`value_id` 1 while the Value table is empty, so no two records share a `ValueID`. The
batch observes the integer 7 for (c1, p1, tier); the call returns nil, the new Value row
gets `value_id` 1, and the two records of the resulting store both refer to it. -/
theorem exclusive_value_ownership_counterexample :
    (([gorm.recordOf 1 "seats" 1 50]).map (fun r => r.ValueID)).Nodup ∧
      UpdateEntitlements (gorm.Env.ideal 100) ⟨[], [gorm.recordOf 1 "seats" 1 50]⟩
          ⟨[observe "tier" (integerOf 7) (some 1700000000)], none⟩
        = (⟨[gorm.integerRow 1 7],
            [gorm.recordOf 1 "seats" 1 50, gorm.recordOf 2 "tier" 1 100]⟩, .returned none) ∧
      ¬(([gorm.recordOf 1 "seats" 1 50, gorm.recordOf 2 "tier" 1 100]).map
          (fun r => r.ValueID)).Nodup := by
  refine ⟨by decide, by decide, by decide⟩

end repo

/-! ## Customer registration -/

namespace repo

/-- C15, evaluated where the code departs from it. The query finds the row of customer
`c1` whose name column holds the empty string and whose other five profile fields are
filled in. The name is empty, so not all six profile fields are non-empty; the comment
above the check reads "Check if any required fields are empty", yet the check compares
the six scanned pointers with nil only, and the call returns `NeedsRegistration` false.
The same happens for a row whose six profile fields are all the empty string. A row whose
name is NULL gives `NeedsRegistration` true, and a row with six non-empty fields false. -/
theorem registration_ignores_empty_fields :
    ((customerRow (some "")).CustomerIdentifier ≠ "" ∧
      nonEmpty (customerRow (some "")).Name = false ∧
      CheckCustomerRegistration (fun _ => .ok (customerRow (some ""))) "c1"
        = .ok { NeedsRegistration := false, ProductName := "" }) ∧
    CheckCustomerRegistration
        (fun _ => .ok { CustomerIdentifier := "c1", Name := some "", Email := some "",
                        Phone := some "", JobRole := some "", Company := some "",
                        Country := some "", ProductName := none }) "c1"
      = .ok { NeedsRegistration := false, ProductName := "" } ∧
    CheckCustomerRegistration (fun _ => .ok (customerRow none)) "c1"
      = .ok { NeedsRegistration := true, ProductName := "" } ∧
    CheckCustomerRegistration (fun _ => .ok (customerRow (some "Ada"))) "c1"
      = .ok { NeedsRegistration := false, ProductName := "" } :=
  ⟨⟨by decide, by decide, rfl⟩, rfl, rfl, rfl⟩

end repo
